import Mathlib

/-
Verification of the M3U8 playlist parser (`m3u8_extractor.py`).

Python strings are modelled as `List Char` (`Str` below).  Each Python
function of the parsing core is translated into a Lean definition of the
same name; targeted regular expressions are translated into explicit
left-to-right scanners that implement the leftmost-match semantics of
`re.search` for the concrete patterns appearing in the source.  Statements
that can raise (`int(...)`, `float(...)`, `list[...]` indexing) are
modelled with `Except String`.

Known simplifications (noted where relevant): `\d` and `\s` are modelled
as ASCII digits / ASCII whitespace (the source playlists are ASCII), and
Python's numeric literals with underscores are not modelled.  `float`
values are modelled as exact rationals.  `urllib.parse.urljoin` is an
external library routine; it is threaded through as an explicit function
parameter `join`, exactly like the fetch collaborator.
-/

namespace M3U8

/-- Python strings, modelled as lists of characters. -/
abbrev Str := List Char

/-- ASCII whitespace, the character class of Python's `\s` and of
`str.strip()` on ASCII text. -/
def pySpace (c : Char) : Bool :=
  c == ' ' || c == '\t' || c == '\n' || c == '\r' || c == '\x0b' || c == '\x0c'

/-- Drop trailing whitespace (the right half of `str.strip()`). -/
def dropTrailingSpaces (l : Str) : Str :=
  (l.reverse.dropWhile pySpace).reverse

/-- Python `str.strip()`: remove leading and trailing whitespace. -/
def pyStrip (l : Str) : Str :=
  dropTrailingSpaces (l.dropWhile pySpace)

/-- Python `str.startswith`. -/
def pyStartsWith (p l : Str) : Bool :=
  List.isPrefixOf p l

/-- Python `str.split(sep)` for a one-character separator: split on every
occurrence, keeping empty pieces. -/
def splitOnChar (sep : Char) : Str → List Str
  | [] => [[]]
  | c :: cs =>
    if c = sep then [] :: splitOnChar sep cs
    else
      match splitOnChar sep cs with
      | h :: t => (c :: h) :: t
      | [] => [[c]]

/-- Everything after the first occurrence of `sep`, i.e.
`s.split(sep, 1)[1]` when `sep` occurs in `s` (unstripped). -/
def afterFirst (sep : Char) (l : Str) : Str :=
  (l.dropWhile (fun c => !(c == sep))).drop 1

/-- Decimal value of a digit string. -/
def digitsToNat (l : Str) : ℕ :=
  l.foldl (fun a c => a * 10 + (c.toNat - 48)) 0

/-- Python `int(s)`: strip whitespace, optional sign, then decimal digits;
anything else raises `ValueError` (modelled as `none`).  Underscore
digit separators and non-ASCII digits are not modelled. -/
def pyInt? (s : Str) : Option ℤ :=
  match pyStrip s with
  | '-' :: r => if !r.isEmpty && r.all Char.isDigit then some (-(digitsToNat r : ℤ)) else none
  | '+' :: r => if !r.isEmpty && r.all Char.isDigit then some (digitsToNat r : ℤ) else none
  | r => if !r.isEmpty && r.all Char.isDigit then some (digitsToNat r : ℤ) else none

/-- Python `float(tok)` on a token drawn from the character class
`[\d.-]` (the only way the source calls `float`): optional leading minus,
then `digits`, `digits.digits`, `digits.` or `.digits`; anything else
raises `ValueError` (modelled as `none`).  The value is modelled as an
exact rational. -/
def pyFloat? (l : Str) : Option ℚ :=
  let (neg, rest) :=
    match l with
    | '-' :: r => (true, r)
    | r => (false, r)
  let ip := rest.takeWhile Char.isDigit
  let rest2 := rest.drop ip.length
  let val? : Option ℚ :=
    match rest2 with
    | [] => if ip.isEmpty then none else some (digitsToNat ip : ℚ)
    | '.' :: fp0 =>
      let fp := fp0.takeWhile Char.isDigit
      if !(fp0.drop fp.length).isEmpty then none
      else if ip.isEmpty && fp.isEmpty then none
      else some ((digitsToNat ip : ℚ) + (digitsToNat fp : ℚ) / ((10 : ℚ) ^ fp.length))
    | _ => none
  val?.map (fun q => if neg then -q else q)

/-- Character class `[\d.-]` of the `EXTINF` duration regex. -/
def extinfClass (c : Char) : Bool :=
  c.isDigit || c == '.' || c == '-'

/-- `re.search(key + cls+ , line)` for a literal key followed by a
nonempty run of class characters, capturing the (greedy) run — the shape
of `#EXTINF:([\d.-]+)`, `BANDWIDTH=(\d+)` and `DURATION=([\d.]+)`.
Scans left to right like `re.search`. -/
def findKeyRun (key : Str) (cls : Char → Bool) : Str → Option Str
  | [] => none
  | c :: cs =>
    if pyStartsWith key (c :: cs) then
      let run := ((c :: cs).drop key.length).takeWhile cls
      if run.isEmpty then findKeyRun key cls cs else some run
    else findKeyRun key cls cs

/-- `re.search(key + "([^"]+)"` for a literal key ending in an opening
quote, capturing the nonempty run up to the closing quote — the shape of
`CODECS="([^"]+)"`, `tvg-logo="([^"]+)"`, `group-title="([^"]+)"`,
`ID="([^"]+)"`, `START-DATE="([^"]+)"`, `END-DATE="([^"]+)"`. -/
def findQuotedAttr (key : Str) : Str → Option Str
  | [] => none
  | c :: cs =>
    if pyStartsWith key (c :: cs) then
      let rest := (c :: cs).drop key.length
      let run := rest.takeWhile (fun x => !(x == '"'))
      if run.isEmpty then findQuotedAttr key cs
      else if (rest.drop run.length).isEmpty then findQuotedAttr key cs
      else some run
    else findQuotedAttr key cs

/-- `re.search(r'RESOLUTION=(\d+x\d+)', line)`. -/
def findResolution : Str → Option Str
  | [] => none
  | c :: cs =>
    if pyStartsWith ("RESOLUTION=".data) (c :: cs) then
      let rest := (c :: cs).drop 11
      let r1 := rest.takeWhile Char.isDigit
      if r1.isEmpty then findResolution cs
      else
        match rest.drop r1.length with
        | 'x' :: rest3 =>
          let r2 := rest3.takeWhile Char.isDigit
          if r2.isEmpty then findResolution cs else some (r1 ++ 'x' :: r2)
        | _ => findResolution cs
    else findResolution cs

/-- One alternative of `(AM|PM)` with `re.IGNORECASE`. -/
def isAmPm (x y : Char) : Bool :=
  (x == 'A' || x == 'a' || x == 'P' || x == 'p') && (y == 'M' || y == 'm')

/-- Attempt the pattern `\d{1,2}:\d{2}(?:AM|PM)` (ignorecase) at the head
of `l`, with the backtracking order of `re` (two digits tried before
one).  Returns the matched text and the remainder. -/
def matchTimeAt (l : Str) : Option (Str × Str) :=
  match l with
  | a :: b :: rest1 =>
    if a.isDigit && b.isDigit then
      match rest1 with
      | ':' :: c :: d :: x :: y :: r =>
        if c.isDigit && d.isDigit && isAmPm x y then some ([a, b, ':', c, d, x, y], r) else none
      | _ => none
    else if a.isDigit && b == ':' then
      match rest1 with
      | c :: d :: x :: y :: r =>
        if c.isDigit && d.isDigit && isAmPm x y then some ([a, ':', c, d, x, y], r) else none
      | _ => none
    else none
  | _ => none

/-- `re.search(r'(\d{1,2}:\d{2}(?:AM|PM))', title, re.IGNORECASE)`:
leftmost match, returning the captured time token. -/
def findTime : Str → Option Str
  | [] => none
  | c :: cs =>
    match matchTimeAt (c :: cs) with
    | some (cap, _) => some cap
    | none => findTime cs

/-- Attempt `\d{1,2}:\d{2}(AM|PM)\s*\|` at the head of `l`. -/
def eventTokAt (l : Str) : Bool :=
  match matchTimeAt l with
  | some (_, r) =>
    match r.dropWhile pySpace with
    | '|' :: _ => true
    | _ => false
  | none => false

/-- `is_event_entry` (`m3u8_extractor.py:200`):
`re.search(r'\d{1,2}:\d{2}(AM|PM)\s*\|', title, re.IGNORECASE)`. -/
def is_event_entry : Str → Bool
  | [] => false
  | c :: cs => eventTokAt (c :: cs) || is_event_entry cs

/-- Attempt `\((\d{1,2}/\d{1,2}/\d{2,4})\)` at the head of `l`,
returning the captured date (without the parentheses). -/
def matchDateAt (l : Str) : Option Str :=
  match l with
  | '(' :: r =>
    if 1 ≤ (r.takeWhile Char.isDigit).length && (r.takeWhile Char.isDigit).length ≤ 2 then
      match r.drop (r.takeWhile Char.isDigit).length with
      | '/' :: r2 =>
        if 1 ≤ (r2.takeWhile Char.isDigit).length && (r2.takeWhile Char.isDigit).length ≤ 2 then
          match r2.drop (r2.takeWhile Char.isDigit).length with
          | '/' :: r3 =>
            if 2 ≤ (r3.takeWhile Char.isDigit).length && (r3.takeWhile Char.isDigit).length ≤ 4 then
              match r3.drop (r3.takeWhile Char.isDigit).length with
              | ')' :: _ =>
                some ((r.takeWhile Char.isDigit) ++ '/' :: (r2.takeWhile Char.isDigit) ++
                  '/' :: (r3.takeWhile Char.isDigit))
              | _ => none
            else none
          | _ => none
        else none
      | _ => none
    else none
  | _ => none

/-- `re.search(r'\((\d{1,2}/\d{1,2}/\d{2,4})\)', title)`: leftmost
match, returning the captured date. -/
def findDate : Str → Option Str
  | [] => none
  | c :: cs =>
    match matchDateAt (c :: cs) with
    | some cap => some cap
    | none => findDate cs

/-- Leftmost match of `\[([^\]]+)\]$`: the position of the `[` and the
captured bracket content.  Valid at a position iff everything from the
`[` to the end of the string is `[`, a nonempty run without `]`, and a
final `]`. -/
def findBracketEndAux : Str → ℕ → Option (ℕ × Str)
  | [], _ => none
  | '[' :: rest, i =>
    let content := rest.dropLast
    if rest.getLast? == some ']' && !content.isEmpty && content.all (fun c => !(c == ']')) then
      some (i, content)
    else findBracketEndAux rest (i + 1)
  | _ :: rest, i => findBracketEndAux rest (i + 1)

/-- `re.search(r'\[([^\]]+)\]$', s)`. -/
def findBracketEnd (l : Str) : Option (ℕ × Str) :=
  findBracketEndAux l 0

/-- `re.sub(r'\s*\[[^\]]+\]$', '', s)`: strip a trailing bracketed token
together with the whitespace run just before it; identity when the
pattern does not match. -/
def stripBracketSub (l : Str) : Str :=
  match findBracketEnd l with
  | none => l
  | some (pos, _) => dropTrailingSpaces (l.take pos)

/-- Attempt `\d{1,2}:\d{2}(?:AM|PM)\s*\|?` at the head of `l`, returning
the remainder after the whole match (used by the global `re.sub` in the
no-pipe fallback of `parse_event_title`). -/
def matchTimePipeRest (l : Str) : Option Str :=
  match matchTimeAt l with
  | none => none
  | some (_, r) =>
    let r1 := r.dropWhile pySpace
    if pyStartsWith ['|'] r1 then some (r1.drop 1) else some r1

theorem matchTimeAt_rest_length {l cap r : Str} (h : matchTimeAt l = some (cap, r)) :
    r.length + 6 ≤ l.length := by
  unfold matchTimeAt at h
  split at h
  · rename_i a b rest1
    split at h
    · split at h
      · split at h
        · rename_i c d x y r1 _
          cases h
          simp
        · exact absurd h (by simp)
      · exact absurd h (by simp)
    · split at h
      · split at h
        · split at h
          · rename_i c d x y r1 _ _
            cases h
            simp
          · exact absurd h (by simp)
        · exact absurd h (by simp)
      · exact absurd h (by simp)
  · exact absurd h (by simp)

theorem matchTimePipeRest_length {l r : Str} (h : matchTimePipeRest l = some r) :
    r.length < l.length := by
  unfold matchTimePipeRest at h
  cases hm : matchTimeAt l with
  | none => rw [hm] at h; exact absurd h (by simp)
  | some p =>
    obtain ⟨cap, r0⟩ := p
    have hlen : r0.length + 6 ≤ l.length := matchTimeAt_rest_length hm
    have hdw : (r0.dropWhile pySpace).length ≤ r0.length :=
      (List.dropWhile_suffix pySpace).length_le
    rw [hm] at h
    simp only at h
    have hr : r.length ≤ (r0.dropWhile pySpace).length := by
      split at h
      · cases h
        simp [List.length_drop]
      · cases h
        exact le_refl _
    omega

/-- `re.sub(r'\d{1,2}:\d{2}(?:AM|PM)\s*\|?', '', s, flags=re.IGNORECASE)`:
remove every (non-overlapping, left-to-right) match. -/
def removeTimeTokens : Str → Str
  | [] => []
  | c :: cs =>
    match h : matchTimePipeRest (c :: cs) with
    | some r => removeTimeTokens r
    | none => c :: removeTimeTokens cs
termination_by l => l.length
decreasing_by
  · exact matchTimePipeRest_length h
  · simp

/-! ## Data model

The dynamically shaped dictionaries of the Python source become records;
a key that the source only sometimes sets (or sets to `None`) becomes an
`Option` field. -/

/-- The `result['metadata']` dictionary (`version`, `target_duration`,
`media_sequence` keys). -/
structure Metadata where
  version : Option Str
  target_duration : Option ℤ
  media_sequence : Option ℤ
deriving Repr, DecidableEq

/-- Result of `parse_stream_inf` (without the `url` key added later). -/
structure StreamInfHeader where
  bandwidth : Option ℕ
  resolution : Option Str
  codecs : Option Str
deriving Repr, DecidableEq

/-- Result of `parse_extinf` (without the `url` key added later). -/
structure ExtinfInfo where
  duration : Option ℚ
  logo : Option Str
  group_title : Option Str
  title : Option Str
deriving Repr, DecidableEq

/-- An entry of `result['segments']`: the `parse_extinf` dictionary with
its `url` key filled in. -/
structure Segment where
  duration : Option ℚ
  logo : Option Str
  group_title : Option Str
  title : Option Str
  url : Str
deriving Repr, DecidableEq

/-- An event entry appended to `result['events']` for an `EXTINF` title
matching the event grammar: the `parse_event_title` dictionary updated
with `url`/`duration`/`logo`/`group_title`. -/
structure ChannelEntry where
  event_time : Option Str
  event_date : Option Str
  channel_name : Option Str
  event_title : Option Str
  url : Str
  duration : Option ℚ
  logo : Option Str
  group_title : Option Str
deriving Repr, DecidableEq

/-- Result of `parse_daterange`. -/
structure DateRangeInfo where
  id : Option Str
  start_date : Option Str
  end_date : Option Str
  duration : Option ℚ
deriving Repr, DecidableEq

/-- The tagged variants appended to `result['events']`. -/
inductive TimedEvent where
  | channel (e : ChannelEntry)
  | programDateTime (timestamp : Str) (line_number : ℕ)
  | daterange (d : DateRangeInfo)
  | cueOut (duration : Option Str) (line_number : ℕ)
  | cueIn (line_number : ℕ)
deriving Repr, DecidableEq

/-- A channel reference inside a grouped event
(`result['grouped_events'][title]['channels']`). -/
structure ChannelRef where
  channel_name : Option Str
  url : Str
  logo : Option Str
  duration : Option ℚ
deriving Repr, DecidableEq

/-- One value of the `result['grouped_events']` dictionary.  The source
seeds `category` from `event_info.get('category')`; `parse_event_title`
never sets that key, so the seed is always `None`. -/
structure EventGroup where
  event_title : Str
  event_time : Option Str
  event_date : Option Str
  category : Option Str
  channels : List ChannelRef
deriving Repr, DecidableEq

/-- An entry of `result['streams']`: the `parse_stream_inf` dictionary
with its `url`, plus the three keys that `extract_all` may attach after
hierarchical resolution (absent until then). -/
structure StreamVariant where
  bandwidth : Option ℕ
  resolution : Option Str
  codecs : Option Str
  url : Str
  segments : Option (List Segment)
  events : Option (List TimedEvent)
  metadata : Option Metadata
deriving Repr, DecidableEq

/-- The `result` dictionary built by `parse_m3u8`.  The `timestamp` key
(`datetime.now().isoformat()`) is wall-clock output with no invariants
and is not modelled.  `grouped_events` is a Python `dict`, i.e. an
insertion-ordered association list. -/
structure PlaylistModel where
  base_url : Str
  streams : List StreamVariant
  segments : List Segment
  events : List TimedEvent
  grouped_events : List (Str × EventGroup)
  metadata : Metadata
deriving Repr, DecidableEq

/-- The fresh `result` dictionary of `m3u8_extractor.py:37`. -/
def initModel (base : Str) : PlaylistModel :=
  { base_url := base, streams := [], segments := [], events := [],
    grouped_events := [], metadata := ⟨none, none, none⟩ }

/-! ## Line decoders (`parse_stream_inf`, `parse_extinf`,
`parse_event_title`, `parse_daterange`) -/

/-- `parse_stream_inf` (`m3u8_extractor.py:150`).  All three attributes
are regex searches; `int()` on a `\d+` capture cannot raise. -/
def parse_stream_inf (line : Str) : StreamInfHeader :=
  { bandwidth := (findKeyRun ("BANDWIDTH=".data) Char.isDigit line).map digitsToNat,
    resolution := findResolution line,
    codecs := findQuotedAttr ("CODECS=".data ++ ['"']) line }

/-- The title part of an `EXTINF` line: everything after the first comma,
stripped; the key is set only when nonempty (`m3u8_extractor.py:193`). -/
def titleOf (line : Str) : Option Str :=
  if line.contains ',' then
    let t := pyStrip (afterFirst ',' line)
    if t.isEmpty then none else some t
  else none

/-- `parse_extinf` (`m3u8_extractor.py:171`).  The duration is the
capture of `#EXTINF:([\d.-]+)`; the literal token `-1` leaves the field
absent, any other token is passed to `float()`, which raises on tokens
such as `..` (modelled as `Except.error`). -/
def parse_extinf (line : Str) : Except String ExtinfInfo :=
  let durE : Except String (Option ℚ) :=
    match findKeyRun ("#EXTINF:".data) extinfClass line with
    | none => Except.ok none
    | some tok =>
      if tok = ['-', '1'] then Except.ok none
      else
        match pyFloat? tok with
        | some q => Except.ok (some q)
        | none => Except.error "ValueError: could not convert string to float"
  match durE with
  | Except.error e => Except.error e
  | Except.ok dur =>
    Except.ok
      { duration := dur,
        logo := findQuotedAttr ("tvg-logo=".data ++ ['"']) line,
        group_title := findQuotedAttr ("group-title=".data ++ ['"']) line,
        title := titleOf line }

/-- Result of `parse_event_title`: the partially filled event record. -/
structure EventFields where
  event_time : Option Str
  event_date : Option Str
  channel_name : Option Str
  event_title : Option Str
deriving Repr, DecidableEq

/-- `parse_event_title` (`m3u8_extractor.py:206`).  When the title
contains a pipe, `split('|', 1)` always yields two parts, so the pipe
branch always sets `event_title`; the fallback (line 237) therefore runs
exactly when there is no pipe. -/
def parse_event_title (title : Str) : EventFields :=
  if title.contains '|' then
    match findBracketEnd (pyStrip (afterFirst '|' title)) with
    | some (_, content) =>
      { event_time := findTime title, event_date := findDate title,
        channel_name := some (pyStrip content),
        event_title := some (pyStrip (stripBracketSub (pyStrip (afterFirst '|' title)))) }
    | none =>
      { event_time := findTime title, event_date := findDate title,
        channel_name := none, event_title := some (pyStrip (afterFirst '|' title)) }
  else
    { event_time := findTime title, event_date := findDate title, channel_name := none,
      event_title := some (pyStrip (stripBracketSub (removeTimeTokens title))) }

/-- `parse_daterange` (`m3u8_extractor.py:246`).  `DURATION=([\d.]+)`
feeds `float()`, which raises on a token such as `..`. -/
def parse_daterange (line : Str) : Except String DateRangeInfo :=
  let durE : Except String (Option ℚ) :=
    match findKeyRun ("DURATION=".data) (fun c => c.isDigit || c == '.') line with
    | none => Except.ok none
    | some tok =>
      match pyFloat? tok with
      | some q => Except.ok (some q)
      | none => Except.error "ValueError: could not convert string to float"
  match durE with
  | Except.error e => Except.error e
  | Except.ok dur =>
    Except.ok
      { id := findQuotedAttr ("ID=".data ++ ['"']) line,
        start_date := findQuotedAttr ("START-DATE=".data ++ ['"']) line,
        end_date := findQuotedAttr ("END-DATE=".data ++ ['"']) line,
        duration := dur }

/-! ## Event grouping (`m3u8_extractor.py:90`–`108`) -/

/-- The `ChannelRef` appended at `m3u8_extractor.py:101`. -/
def chanRef (e : ChannelEntry) : ChannelRef :=
  { channel_name := e.channel_name, url := e.url, logo := e.logo, duration := e.duration }

/-- The grouping key: `event_info.get('event_title', 'Unknown Event')`. -/
def keyOf (e : ChannelEntry) : Str :=
  e.event_title.getD ("Unknown Event".data)

/-- The group created at `m3u8_extractor.py:93` when the key is absent.
`category` is seeded from `event_info.get('category')`, a key that
`parse_event_title` never sets, hence `none`. -/
def seedGroup (key : Str) (e : ChannelEntry) : EventGroup :=
  { event_title := key, event_time := e.event_time, event_date := e.event_date,
    category := none, channels := [] }

/-- Append a `ChannelRef` to the channel list of the (first) entry with
the given key (`m3u8_extractor.py:101`). -/
def appendChannel (key : Str) (r : ChannelRef) : List (Str × EventGroup) → List (Str × EventGroup)
  | [] => []
  | (k, g) :: t =>
    if k == key then (k, { g with channels := g.channels ++ [r] }) :: t
    else (k, g) :: appendChannel key r t

/-- Lines 92–106: insert a seeded group when the key is new, then append
this entry's channel reference. -/
def upsertGroup (grouped : List (Str × EventGroup)) (key : Str) (e : ChannelEntry) :
    List (Str × EventGroup) :=
  let g1 :=
    match List.lookup key grouped with
    | some _ => grouped
    | none => grouped ++ [(key, seedGroup key e)]
  appendChannel key (chanRef e) g1

/-! ## The scanning loop (`parse_m3u8`, `m3u8_extractor.py:33`) -/

/-- Resolution of a paired continuation line against the base url
(`m3u8_extractor.py:64`–`66`, 75/80–81, 111–112): strip it, keep it if
it starts with `http`, otherwise `urljoin` it. -/
def resolveUrl (join : Str → Str → Str) (base nxt : Str) : Str :=
  if pyStartsWith ("http".data) (pyStrip nxt) then pyStrip nxt else join base (pyStrip nxt)

/-- A freshly appended stream variant: the `parse_stream_inf` record
with its url; the resolution-time keys do not exist yet. -/
def mkVariant (info : StreamInfHeader) (u : Str) : StreamVariant :=
  { bandwidth := info.bandwidth, resolution := info.resolution, codecs := info.codecs,
    url := u, segments := none, events := none, metadata := none }

/-- A freshly appended media segment: the `parse_extinf` record with its
url (`m3u8_extractor.py:113`). -/
def mkSegment (info : ExtinfInfo) (u : Str) : Segment :=
  { duration := info.duration, logo := info.logo, group_title := info.group_title,
    title := info.title, url := u }

/-- The merged event record of `m3u8_extractor.py:79`–`88`:
`parse_event_title` output updated with url/duration/logo/group_title. -/
def mkChannelEntry (info : ExtinfInfo) (t u : Str) : ChannelEntry :=
  { event_time := (parse_event_title t).event_time,
    event_date := (parse_event_title t).event_date,
    channel_name := (parse_event_title t).channel_name,
    event_title := (parse_event_title t).event_title,
    url := u, duration := info.duration, logo := info.logo,
    group_title := info.group_title }

/-- Lines 90–108: group the entry, then append it to `events`. -/
def applyChannelEntry (st : PlaylistModel) (entry : ChannelEntry) : PlaylistModel :=
  { st with
      grouped_events := upsertGroup st.grouped_events (keyOf entry) entry,
      events := st.events ++ [TimedEvent.channel entry] }

/-- The `#EXTINF` branch once the line is decoded
(`m3u8_extractor.py:74`–`115`): with no following line nothing is
appended; otherwise the following line becomes the url of either a
channel entry (event-shaped title) or a media segment. -/
def extinfStep (join : Str → Str → Str) (base : Str) (info : ExtinfInfo)
    (next : Option Str) (st : PlaylistModel) : PlaylistModel :=
  match next with
  | none => st
  | some nxt =>
    match info.title with
    | some t =>
      if is_event_entry t then
        applyChannelEntry st (mkChannelEntry info t (resolveUrl join base nxt))
      else
        { st with segments := st.segments ++ [mkSegment info (resolveUrl join base nxt)] }
    | none =>
      { st with segments := st.segments ++ [mkSegment info (resolveUrl join base nxt)] }

/-- The `#EXT-X-STREAM-INF` branch (`m3u8_extractor.py:60`–`69`): with
no following line nothing is appended (the decoded header is
discarded); otherwise the following line becomes the variant's url. -/
def streamInfStep (join : Str → Str → Str) (base line : Str) (next : Option Str)
    (st : PlaylistModel) : PlaylistModel :=
  match next with
  | none => st
  | some nxt =>
    { st with streams := st.streams ++ [mkVariant (parse_stream_inf line) (resolveUrl join base nxt)] }

/-- One iteration of the `while i < len(lines)` loop, handling the
(already fetched) line at the cursor; `next` is `lines[i+1]` when it
exists.  The returned `Bool` is `true` when the branch executed the
extra `i += 1` of the paired directives (`STREAM-INF`, `EXTINF`).
Branches that can raise (`int(...)`, `float(...)`, `[1]` indexing)
return `Except.error`. -/
def stepLine (join : Str → Str → Str) (base : Str) (rawLine : Str) (next : Option Str)
    (i : ℕ) (st : PlaylistModel) : Except String (PlaylistModel × Bool) :=
  if pyStartsWith ("#EXT-X-VERSION".data) (pyStrip rawLine) then
    match (splitOnChar ':' (pyStrip rawLine)).get? 1 with
    | none => Except.error "IndexError: list index out of range"
    | some v =>
      Except.ok ({ st with metadata := { st.metadata with version := some v } }, false)
  else if pyStartsWith ("#EXT-X-TARGETDURATION".data) (pyStrip rawLine) then
    match (splitOnChar ':' (pyStrip rawLine)).get? 1 with
    | none => Except.error "IndexError: list index out of range"
    | some v =>
      match pyInt? v with
      | none => Except.error "ValueError: invalid literal for int() with base 10"
      | some n =>
        Except.ok ({ st with metadata := { st.metadata with target_duration := some n } }, false)
  else if pyStartsWith ("#EXT-X-MEDIA-SEQUENCE".data) (pyStrip rawLine) then
    match (splitOnChar ':' (pyStrip rawLine)).get? 1 with
    | none => Except.error "IndexError: list index out of range"
    | some v =>
      match pyInt? v with
      | none => Except.error "ValueError: invalid literal for int() with base 10"
      | some n =>
        Except.ok ({ st with metadata := { st.metadata with media_sequence := some n } }, false)
  else if pyStartsWith ("#EXT-X-STREAM-INF".data) (pyStrip rawLine) then
    Except.ok (streamInfStep join base (pyStrip rawLine) next st, true)
  else if pyStartsWith ("#EXTINF".data) (pyStrip rawLine) then
    match parse_extinf (pyStrip rawLine) with
    | Except.error e => Except.error e
    | Except.ok info => Except.ok (extinfStep join base info next st, true)
  else if pyStartsWith ("#EXT-X-PROGRAM-DATE-TIME".data) (pyStrip rawLine) then
    if (pyStrip rawLine).contains ':' then
      Except.ok
        ({ st with events := st.events ++
            [TimedEvent.programDateTime (afterFirst ':' (pyStrip rawLine)) i] }, false)
    else Except.error "IndexError: list index out of range"
  else if pyStartsWith ("#EXT-X-DATERANGE".data) (pyStrip rawLine) then
    match parse_daterange (pyStrip rawLine) with
    | Except.error e => Except.error e
    | Except.ok d =>
      Except.ok ({ st with events := st.events ++ [TimedEvent.daterange d] }, false)
  else if pyStartsWith ("#EXT-X-CUE-OUT".data) (pyStrip rawLine) then
    Except.ok
      ({ st with events := st.events ++
          [TimedEvent.cueOut
            (if (pyStrip rawLine).contains ':' then some (afterFirst ':' (pyStrip rawLine))
             else none) i] }, false)
  else if pyStartsWith ("#EXT-X-CUE-IN".data) (pyStrip rawLine) then
    Except.ok ({ st with events := st.events ++ [TimedEvent.cueIn i] }, false)
  else
    Except.ok (st, false)

/-- The `while` loop of `parse_m3u8`, recursing over the remaining
lines.  A paired directive advances the cursor by two (when only one
line remains, the loop condition fails right after it, which is the
same as returning the state unchanged). -/
def parseLoop (join : Str → Str → Str) (base : Str) :
    List Str → ℕ → PlaylistModel → Except String PlaylistModel
  | [], _, st => Except.ok st
  | line :: rest, i, st =>
    match stepLine join base line rest.head? i st with
    | Except.error e => Except.error e
    | Except.ok (st', false) => parseLoop join base rest (i + 1) st'
    | Except.ok (st', true) =>
      match rest with
      | [] => Except.ok st'
      | _ :: rest2 => parseLoop join base rest2 (i + 2) st'

/-- `parse_m3u8` (`m3u8_extractor.py:33`):
`lines = content.strip().split('\n')`, then the scanning loop. -/
def parse_m3u8 (join : Str → Str → Str) (content base : Str) : Except String PlaylistModel :=
  parseLoop join base (splitOnChar '\n' (pyStrip content)) 0 (initModel base)

/-! ## Hierarchical resolution (`extract_all`, `m3u8_extractor.py:272`) -/

/-- What `extract_all` returns without raising: either the error
dictionary `{'error': 'Failed to fetch playlist'}` or the model. -/
inductive ExtractOutcome where
  | errorDict (msg : String)
  | ok (m : PlaylistModel)
deriving Repr

/-- The `for stream in result['streams']` loop of `extract_all`: fetch
each variant's url; a failed or empty fetch leaves the variant
untouched, a successful fetch parses the child playlist and copies its
`segments`/`events`/`metadata` into the variant.  A parse exception
propagates. -/
def resolveStreams (join : Str → Str → Str) (fetch : Str → Option Str) :
    List StreamVariant → Except String (List StreamVariant)
  | [] => Except.ok []
  | s :: t =>
    let sE : Except String StreamVariant :=
      match fetch s.url with
      | none => Except.ok s
      | some c =>
        if c.isEmpty then Except.ok s
        else
          match parse_m3u8 join c s.url with
          | Except.error e => Except.error e
          | Except.ok child =>
            Except.ok { s with segments := some child.segments,
                               events := some child.events,
                               metadata := some child.metadata }
    match sE with
    | Except.error e => Except.error e
    | Except.ok s' =>
      match resolveStreams join fetch t with
      | Except.error e => Except.error e
      | Except.ok t' => Except.ok (s' :: t')

/-- `extract_all` (`m3u8_extractor.py:272`).  The fetch collaborator
(`fetch_playlist`, which catches request errors and returns `None`) is
the function parameter `fetch`; Python's `if not content` also treats an
empty string as a failed fetch.  A raised parse exception is
`Except.error`; the returned error dictionary is `ExtractOutcome.errorDict`. -/
def extract_all (join : Str → Str → Str) (fetch : Str → Option Str) (url : Str) :
    Except String ExtractOutcome :=
  match fetch url with
  | none => Except.ok (ExtractOutcome.errorDict "Failed to fetch playlist")
  | some content =>
    if content.isEmpty then Except.ok (ExtractOutcome.errorDict "Failed to fetch playlist")
    else
      match parse_m3u8 join content url with
      | Except.error e => Except.error e
      | Except.ok r =>
        if r.streams.isEmpty then Except.ok (ExtractOutcome.ok r)
        else
          match resolveStreams join fetch r.streams with
          | Except.error e => Except.error e
          | Except.ok ss => Except.ok (ExtractOutcome.ok { r with streams := ss })

/-! ## Derived notions used by the specification claims -/

/-- Whether a `TimedEvent` is a `ChannelEntry` record. -/
def isChannelEv : TimedEvent → Bool
  | TimedEvent.channel _ => true
  | _ => false

/-- Number of `ChannelEntry` records in an event list. -/
def countChannelEvents (evs : List TimedEvent) : ℕ :=
  evs.countP isChannelEv

/-- The `ChannelEntry` records of an event list, in order. -/
def chEntries (evs : List TimedEvent) : List ChannelEntry :=
  evs.filterMap (fun ev =>
    match ev with
    | TimedEvent.channel e => some e
    | _ => none)

/-- Total number of channel references across all groups. -/
def sumChannels (g : List (Str × EventGroup)) : ℕ :=
  (g.map (fun p => p.2.channels.length)).sum

/-- The grouped-events dictionary obtained by folding `upsertGroup` over
a list of channel entries (in encounter order). -/
def buildGroups (es : List ChannelEntry) : List (Str × EventGroup) :=
  es.foldl (fun g e => upsertGroup g (keyOf e) e) []

/-- Number of lines in the *text* that start with `#EXTINF` and are
directly followed by a non-directive (URI) line — the count used by the
claim as frozen. -/
def specUriCount : List Str → ℕ
  | [] => 0
  | [_] => 0
  | a :: b :: t =>
    (if pyStartsWith ("#EXTINF".data) (pyStrip a) && !(pyStartsWith ("#".data) (pyStrip b))
     then 1 else 0) + specUriCount (b :: t)

/-- Number of `#EXTINF` directives that the scanning cursor actually
processes (a line consumed as the URI continuation of a preceding paired
directive is not processed) and that have at least one following line.
Mirrors the cursor movement of `parse_m3u8`. -/
def processedExtinfCount : List Str → ℕ
  | [] => 0
  | line :: rest =>
    if pyStartsWith ("#EXT-X-VERSION".data) (pyStrip line) then processedExtinfCount rest
    else if pyStartsWith ("#EXT-X-TARGETDURATION".data) (pyStrip line) then
      processedExtinfCount rest
    else if pyStartsWith ("#EXT-X-MEDIA-SEQUENCE".data) (pyStrip line) then
      processedExtinfCount rest
    else if pyStartsWith ("#EXT-X-STREAM-INF".data) (pyStrip line) then
      match rest with
      | [] => 0
      | _ :: rest2 => processedExtinfCount rest2
    else if pyStartsWith ("#EXTINF".data) (pyStrip line) then
      match rest with
      | [] => 0
      | _ :: rest2 => 1 + processedExtinfCount rest2
    else processedExtinfCount rest

/-- A concrete stand-in for `urllib.parse.urljoin`, used to instantiate
the `join` collaborator in closed witnesses and counterexamples (none of
which depend on how relative resolution combines its arguments). -/
def joinConcat (base rel : Str) : Str := base ++ rel

/-- Whether an `Except` computation raised. -/
def isErr : Except String α → Bool
  | Except.error _ => true
  | Except.ok _ => false

/-! ## Structural lemmas about one scanner step -/

set_option maxHeartbeats 2000000 in
/-- Everything a successful `stepLine` can do to the model: leave
`streams` alone or append one unresolved variant; and leave the
`segments`/`events`/`grouped_events` triple alone, append one segment,
append one channel entry (updating the groups with `upsertGroup`), or
append one non-channel event. -/
theorem stepLine_changes {join : Str → Str → Str} {base line : Str} {next : Option Str}
    {i : ℕ} {st st' : PlaylistModel} {b : Bool}
    (h : stepLine join base line next i st = Except.ok (st', b)) :
    (st'.streams = st.streams ∨
      ∃ v, st'.streams = st.streams ++ [v] ∧ v.segments = none ∧ v.events = none ∧
        v.metadata = none)
    ∧ ((st'.segments = st.segments ∧ st'.events = st.events ∧
          st'.grouped_events = st.grouped_events)
       ∨ (∃ s, st'.segments = st.segments ++ [s] ∧ st'.events = st.events ∧
            st'.grouped_events = st.grouped_events)
       ∨ (∃ e, st'.segments = st.segments ∧
            st'.events = st.events ++ [TimedEvent.channel e] ∧
            st'.grouped_events = upsertGroup st.grouped_events (keyOf e) e)
       ∨ (∃ ev, st'.segments = st.segments ∧ st'.events = st.events ++ [ev] ∧
            isChannelEv ev = false ∧ st'.grouped_events = st.grouped_events)) := by
  have hstream : ∀ l nx, (streamInfStep join base l nx st).streams = st.streams ∨
      ∃ v, (streamInfStep join base l nx st).streams = st.streams ++ [v] ∧
        v.segments = none ∧ v.events = none ∧ v.metadata = none := by
    intro l nx
    cases nx with
    | none => exact Or.inl rfl
    | some nxt => exact Or.inr ⟨_, rfl, rfl, rfl, rfl⟩
  have hstream2 : ∀ l nx, (streamInfStep join base l nx st).segments = st.segments ∧
      (streamInfStep join base l nx st).events = st.events ∧
      (streamInfStep join base l nx st).grouped_events = st.grouped_events := by
    intro l nx
    cases nx with
    | none => exact ⟨rfl, rfl, rfl⟩
    | some nxt => exact ⟨rfl, rfl, rfl⟩
  have hext : ∀ info nx, (extinfStep join base info nx st).streams = st.streams := by
    intro info nx
    cases nx with
    | none => rfl
    | some nxt =>
      cases ht : info.title with
      | none => simp [extinfStep, ht]
      | some t =>
        by_cases he : is_event_entry t = true
        · simp [extinfStep, ht, he, applyChannelEntry]
        · simp [extinfStep, ht, he]
  have hext2 : ∀ info nx,
      ((extinfStep join base info nx st).segments = st.segments ∧
        (extinfStep join base info nx st).events = st.events ∧
        (extinfStep join base info nx st).grouped_events = st.grouped_events)
      ∨ (∃ s, (extinfStep join base info nx st).segments = st.segments ++ [s] ∧
          (extinfStep join base info nx st).events = st.events ∧
          (extinfStep join base info nx st).grouped_events = st.grouped_events)
      ∨ (∃ e, (extinfStep join base info nx st).segments = st.segments ∧
          (extinfStep join base info nx st).events = st.events ++ [TimedEvent.channel e] ∧
          (extinfStep join base info nx st).grouped_events =
            upsertGroup st.grouped_events (keyOf e) e) := by
    intro info nx
    cases nx with
    | none => exact Or.inl ⟨rfl, rfl, rfl⟩
    | some nxt =>
      cases ht : info.title with
      | none => exact Or.inr (Or.inl ⟨mkSegment info (resolveUrl join base nxt),
          by simp [extinfStep, ht], by simp [extinfStep, ht], by simp [extinfStep, ht]⟩)
      | some t =>
        by_cases he : is_event_entry t = true
        · refine Or.inr (Or.inr ⟨mkChannelEntry info t (resolveUrl join base nxt), ?_, ?_, ?_⟩) <;>
            simp [extinfStep, ht, he, applyChannelEntry]
        · exact Or.inr (Or.inl ⟨mkSegment info (resolveUrl join base nxt),
            by simp [extinfStep, ht, he], by simp [extinfStep, ht, he],
            by simp [extinfStep, ht, he]⟩)
  unfold stepLine at h
  split at h
  · split at h
    · exact absurd h (by simp)
    · simp only [Except.ok.injEq, Prod.mk.injEq] at h
      obtain ⟨h1, -⟩ := h
      subst h1
      exact ⟨Or.inl rfl, Or.inl ⟨rfl, rfl, rfl⟩⟩
  · split at h
    · split at h
      · exact absurd h (by simp)
      · split at h
        · exact absurd h (by simp)
        · simp only [Except.ok.injEq, Prod.mk.injEq] at h
          obtain ⟨h1, -⟩ := h
          subst h1
          exact ⟨Or.inl rfl, Or.inl ⟨rfl, rfl, rfl⟩⟩
    · split at h
      · split at h
        · exact absurd h (by simp)
        · split at h
          · exact absurd h (by simp)
          · simp only [Except.ok.injEq, Prod.mk.injEq] at h
            obtain ⟨h1, -⟩ := h
            subst h1
            exact ⟨Or.inl rfl, Or.inl ⟨rfl, rfl, rfl⟩⟩
      · split at h
        · simp only [Except.ok.injEq, Prod.mk.injEq] at h
          obtain ⟨h1, -⟩ := h
          subst h1
          exact ⟨hstream _ _, Or.inl (hstream2 _ _)⟩
        · split at h
          · split at h
            · exact absurd h (by simp)
            · simp only [Except.ok.injEq, Prod.mk.injEq] at h
              obtain ⟨h1, -⟩ := h
              subst h1
              refine ⟨Or.inl (hext _ _), ?_⟩
              rcases hext2 _ next with h2 | h2 | h2
              · exact Or.inl h2
              · exact Or.inr (Or.inl h2)
              · exact Or.inr (Or.inr (Or.inl h2))
          · split at h
            · split at h
              · simp only [Except.ok.injEq, Prod.mk.injEq] at h
                obtain ⟨h1, -⟩ := h
                subst h1
                exact ⟨Or.inl rfl, Or.inr (Or.inr (Or.inr ⟨_, rfl, rfl, rfl, rfl⟩))⟩
              · exact absurd h (by simp)
            · split at h
              · split at h
                · exact absurd h (by simp)
                · simp only [Except.ok.injEq, Prod.mk.injEq] at h
                  obtain ⟨h1, -⟩ := h
                  subst h1
                  exact ⟨Or.inl rfl, Or.inr (Or.inr (Or.inr ⟨_, rfl, rfl, rfl, rfl⟩))⟩
              · split at h
                · simp only [Except.ok.injEq, Prod.mk.injEq] at h
                  obtain ⟨h1, -⟩ := h
                  subst h1
                  exact ⟨Or.inl rfl, Or.inr (Or.inr (Or.inr ⟨_, rfl, rfl, rfl, rfl⟩))⟩
                · split at h
                  · simp only [Except.ok.injEq, Prod.mk.injEq] at h
                    obtain ⟨h1, -⟩ := h
                    subst h1
                    exact ⟨Or.inl rfl, Or.inr (Or.inr (Or.inr ⟨_, rfl, rfl, rfl, rfl⟩))⟩
                  · simp only [Except.ok.injEq, Prod.mk.injEq] at h
                    obtain ⟨h1, -⟩ := h
                    subst h1
                    exact ⟨Or.inl rfl, Or.inl ⟨rfl, rfl, rfl⟩⟩

end M3U8

namespace M3U8

/-- Generic invariant preservation along the scanning loop. -/
theorem parseLoop_inv {join : Str → Str → Str} {base : Str} (P : PlaylistModel → Prop)
    (hstep : ∀ line next i st st' b,
      stepLine join base line next i st = Except.ok (st', b) → P st → P st') :
    ∀ n (lines : List Str), lines.length ≤ n → ∀ i st fin,
      parseLoop join base lines i st = Except.ok fin → P st → P fin := by
  intro n
  induction n with
  | zero =>
    intro lines hlen i st fin hp hP
    cases lines with
    | nil =>
      simp only [parseLoop, Except.ok.injEq] at hp
      exact hp ▸ hP
    | cons a t => simp at hlen
  | succ n ih =>
    intro lines hlen i st fin hp hP
    cases lines with
    | nil =>
      simp only [parseLoop, Except.ok.injEq] at hp
      exact hp ▸ hP
    | cons line rest =>
      rw [parseLoop] at hp
      cases hs : stepLine join base line rest.head? i st with
      | error e => rw [hs] at hp; exact absurd hp (by simp)
      | ok p =>
        obtain ⟨st1, b⟩ := p
        rw [hs] at hp
        have hP1 := hstep _ _ _ _ _ _ hs hP
        cases b with
        | false =>
          simp only at hp
          exact ih rest (by simp at hlen; omega) _ _ _ hp hP1
        | true =>
          simp only at hp
          cases rest with
          | nil =>
            simp only [Except.ok.injEq] at hp
            exact hp ▸ hP1
          | cons a rest2 =>
            simp only at hp
            exact ih rest2 (by simp at hlen; omega) _ _ _ hp hP1

/-- `List.lookup` distributes over append: the first list wins. -/
theorem lookup_append {α β : Type} [BEq α] (t : α) (l1 l2 : List (α × β)) :
    List.lookup t (l1 ++ l2) =
      match List.lookup t l1 with
      | some v => some v
      | none => List.lookup t l2 := by
  induction l1 with
  | nil => simp
  | cons p l ih =>
    obtain ⟨k, v⟩ := p
    by_cases hk : t == k
    · simp [List.lookup, hk]
    · simp only [List.cons_append, List.lookup, hk]
      exact ih

/-- `appendChannel` leaves entries with other keys alone. -/
theorem lookup_appendChannel_ne {k t : Str} (hne : k ≠ t) (r : ChannelRef)
    (g : List (Str × EventGroup)) :
    List.lookup t (appendChannel k r g) = List.lookup t g := by
  induction g with
  | nil => rfl
  | cons p l ih =>
    obtain ⟨k0, g0⟩ := p
    by_cases h0 : k0 == k
    · have hk0 : k0 = k := by simpa using h0
      subst hk0
      have : (t == k0) = false := by simp [Ne.symm hne]
      simp [appendChannel, List.lookup, this]
    · have h0' : (k0 == k) = false := by simpa using h0
      simp only [appendChannel, h0', Bool.false_eq_true, if_false, List.lookup]
      cases htk : t == k0 with
      | true => rfl
      | false => exact ih

/-- `appendChannel` appends one reference to the looked-up group. -/
theorem lookup_appendChannel_eq (k : Str) (r : ChannelRef) (g : List (Str × EventGroup)) :
    List.lookup k (appendChannel k r g) =
      (List.lookup k g).map (fun gr => { gr with channels := gr.channels ++ [r] }) := by
  induction g with
  | nil => rfl
  | cons p l ih =>
    obtain ⟨k0, g0⟩ := p
    by_cases h0 : k0 == k
    · have hk0 : k0 = k := by simpa using h0
      subst hk0
      simp [appendChannel, List.lookup]
    · have h0' : (k0 == k) = false := by simpa using h0
      have hk0' : (k == k0) = false := by
        simp only [beq_eq_false_iff_ne] at h0' ⊢
        exact Ne.symm h0'
      simp only [appendChannel, h0', Bool.false_eq_true, if_false, List.lookup, hk0']
      exact ih

/-- Upserting one key does not change lookups of other keys. -/
theorem lookup_upsert_ne {k t : Str} (hne : k ≠ t) (e : ChannelEntry)
    (g : List (Str × EventGroup)) :
    List.lookup t (upsertGroup g k e) = List.lookup t g := by
  unfold upsertGroup
  cases hl : List.lookup k g with
  | some gr => simp only []; exact lookup_appendChannel_ne hne _ _
  | none =>
    simp only []
    rw [lookup_appendChannel_ne hne, lookup_append]
    cases hlt : List.lookup t g with
    | some v => rfl
    | none =>
      have : (t == k) = false := by simp [Ne.symm hne]
      simp [List.lookup, this]

/-- Upserting key `k` yields: a fresh one-channel group when `k` was
absent, or the old group with one channel appended. -/
theorem lookup_upsert_eq (k : Str) (e : ChannelEntry) (g : List (Str × EventGroup)) :
    List.lookup k (upsertGroup g k e) =
      some (match List.lookup k g with
            | some gr => { gr with channels := gr.channels ++ [chanRef e] }
            | none => { seedGroup k e with channels := [chanRef e] }) := by
  unfold upsertGroup
  cases hl : List.lookup k g with
  | some gr =>
    simp only []
    rw [lookup_appendChannel_eq, hl]
    rfl
  | none =>
    simp only []
    rw [lookup_appendChannel_eq, lookup_append, hl]
    simp [List.lookup, seedGroup]

end M3U8

namespace M3U8

/-- When the key is present, `appendChannel` adds exactly one channel
reference overall. -/
theorem sumChannels_appendChannel {k : Str} (r : ChannelRef) (g : List (Str × EventGroup))
    (h : (List.lookup k g).isSome) :
    sumChannels (appendChannel k r g) = sumChannels g + 1 := by
  induction g with
  | nil => simp [List.lookup] at h
  | cons p l ih =>
    obtain ⟨k0, g0⟩ := p
    by_cases h0 : k0 == k
    · simp only [appendChannel, h0, if_true, sumChannels, List.map_cons, List.sum_cons]
      simp
      omega
    · have h0' : (k0 == k) = false := by simpa using h0
      have hk0' : (k == k0) = false := by
        simp only [beq_eq_false_iff_ne] at h0' ⊢
        exact Ne.symm h0'
      simp only [List.lookup, hk0'] at h
      have := ih h
      simp only [appendChannel, h0', Bool.false_eq_true, if_false, sumChannels, List.map_cons,
        List.sum_cons] at *
      omega

/-- `upsertGroup` always adds exactly one channel reference overall. -/
theorem sumChannels_upsert (k : Str) (e : ChannelEntry) (g : List (Str × EventGroup)) :
    sumChannels (upsertGroup g k e) = sumChannels g + 1 := by
  unfold upsertGroup
  cases hl : List.lookup k g with
  | some gr =>
    simp only []
    exact sumChannels_appendChannel _ _ (by simp [hl])
  | none =>
    simp only []
    rw [sumChannels_appendChannel]
    · simp [sumChannels, seedGroup]
    · rw [lookup_append, hl]
      simp [List.lookup]

/-- Folding one more entry into the grouped dictionary. -/
theorem buildGroups_append (es : List ChannelEntry) (e : ChannelEntry) :
    buildGroups (es ++ [e]) = upsertGroup (buildGroups es) (keyOf e) e := by
  unfold buildGroups
  rw [List.foldl_append]
  rfl

/-- Characterization of the grouped dictionary built from a list of
channel entries: looking up `t` finds a group exactly when some entry
has key `t`; the group's metadata comes from the first such entry and
its channels are the references of all of them, in encounter order. -/
theorem lookup_buildGroups (es : List ChannelEntry) (t : Str) :
    List.lookup t (buildGroups es) =
      (es.filter (fun e => keyOf e == t)).head?.map (fun e0 =>
        { event_title := t, event_time := e0.event_time, event_date := e0.event_date,
          category := none,
          channels := (es.filter (fun e => keyOf e == t)).map chanRef }) := by
  induction es using List.reverseRecOn with
  | nil => simp [buildGroups, List.lookup]
  | append_singleton es e ih =>
    rw [buildGroups_append]
    by_cases hk : keyOf e = t
    · subst hk
      rw [lookup_upsert_eq, ih]
      have hfil : (es ++ [e]).filter (fun x => keyOf x == keyOf e) =
          es.filter (fun x => keyOf x == keyOf e) ++ [e] := by
        rw [List.filter_append]
        simp
      rw [hfil]
      cases hes : es.filter (fun x => keyOf x == keyOf e) with
      | nil => simp [seedGroup]
      | cons e0 rest => simp
    · rw [lookup_upsert_ne hk, ih]
      have hfil : (es ++ [e]).filter (fun x => keyOf x == t) =
          es.filter (fun x => keyOf x == t) := by
        rw [List.filter_append]
        simp [hk]
      rw [hfil]

end M3U8

namespace M3U8

/-- Along a successful parse, the grouped dictionary is exactly the fold
of `upsertGroup` over the channel entries recorded in `events`. -/
theorem parse_grouped_eq_buildGroups {join : Str → Str → Str} {content base : Str}
    {r : PlaylistModel} (hp : parse_m3u8 join content base = Except.ok r) :
    r.grouped_events = buildGroups (chEntries r.events) := by
  have hstep : ∀ line next i st st' b,
      stepLine join base line next i st = Except.ok (st', b) →
      st.grouped_events = buildGroups (chEntries st.events) →
      st'.grouped_events = buildGroups (chEntries st'.events) := by
    intro line next i st st' b hs hP
    obtain ⟨-, hbody⟩ := stepLine_changes hs
    rcases hbody with ⟨-, he, hg⟩ | ⟨s, -, he, hg⟩ | ⟨e, -, he, hg⟩ | ⟨ev, -, he, hch, hg⟩
    · rw [hg, he, hP]
    · rw [hg, he, hP]
    · rw [hg, he, hP]
      have : chEntries (st.events ++ [TimedEvent.channel e]) = chEntries st.events ++ [e] := by
        simp [chEntries]
      rw [this, buildGroups_append]
    · rw [hg, he, hP]
      have : chEntries (st.events ++ [ev]) = chEntries st.events := by
        cases ev with
        | channel e => simp [isChannelEv] at hch
        | programDateTime ts ln => simp [chEntries]
        | daterange d => simp [chEntries]
        | cueOut d ln => simp [chEntries]
        | cueIn ln => simp [chEntries]
      rw [this]
  exact parseLoop_inv _ hstep _ _ (le_refl _) _ _ _ hp (by simp [initModel, buildGroups, chEntries])

/-- Along a successful parse, every stream variant still has its
resolution-time fields absent. -/
theorem parse_streams_unresolved {join : Str → Str → Str} {content base : Str}
    {r : PlaylistModel} (hp : parse_m3u8 join content base = Except.ok r) :
    ∀ s ∈ r.streams, s.segments = none ∧ s.events = none ∧ s.metadata = none := by
  have hstep : ∀ line next i st st' b,
      stepLine join base line next i st = Except.ok (st', b) →
      (∀ s ∈ st.streams, s.segments = none ∧ s.events = none ∧ s.metadata = none) →
      (∀ s ∈ st'.streams, s.segments = none ∧ s.events = none ∧ s.metadata = none) := by
    intro line next i st st' b hs hP
    obtain ⟨hstr, -⟩ := stepLine_changes hs
    rcases hstr with hstr | ⟨v, hstr, h1, h2, h3⟩
    · rw [hstr]; exact hP
    · rw [hstr]
      intro s hmem
      rcases List.mem_append.mp hmem with hmem | hmem
      · exact hP s hmem
      · simp at hmem
        exact hmem ▸ ⟨h1, h2, h3⟩
  exact parseLoop_inv _ hstep _ _ (le_refl _) _ _ _ hp (by simp [initModel])

/-- The total channel count of the grouped dictionary equals the number
of folded entries. -/
theorem sumChannels_buildGroups (es : List ChannelEntry) :
    sumChannels (buildGroups es) = es.length := by
  induction es using List.reverseRecOn with
  | nil => simp [buildGroups, sumChannels]
  | append_singleton es e ih =>
    rw [buildGroups_append, sumChannels_upsert, ih]
    simp

/-- Counting channel events is the same as the length of the extracted
channel-entry list. -/
theorem countChannelEvents_eq_length (evs : List TimedEvent) :
    countChannelEvents evs = (chEntries evs).length := by
  induction evs with
  | nil => rfl
  | cons ev t ih =>
    cases ev with
    | channel e => simp [countChannelEvents, chEntries, isChannelEv, List.countP_cons] at ih ⊢; omega
    | programDateTime ts ln =>
      simp [countChannelEvents, chEntries, isChannelEv, List.countP_cons] at ih ⊢; omega
    | daterange d => simp [countChannelEvents, chEntries, isChannelEv, List.countP_cons] at ih ⊢; omega
    | cueOut d ln => simp [countChannelEvents, chEntries, isChannelEv, List.countP_cons] at ih ⊢; omega
    | cueIn ln => simp [countChannelEvents, chEntries, isChannelEv, List.countP_cons] at ih ⊢; omega

end M3U8

namespace M3U8

/-! ## Sample inputs used by witnesses and counterexamples -/

/-- Base url used in concrete scenarios. -/
def sampleBase : Str := ("http://h/").data

/-- A playlist with two event entries sharing the title `Final` (their
times differ), plus one program-date-time event. -/
def samplePlaylist : Str :=
  ("#EXTINF:-1,01:00AM|Final [Feed A]\nu1\n#EXT-X-PROGRAM-DATE-TIME:2020-01-01T00:00:00\n#EXTINF:-1,01:05AM|Final [Feed B]\nu2").data

/-- The grouping key of the two entries above. -/
def sampleTitle : Str := ("Final").data

/-! ## Claim C10 -/

/-- The model obtained by parsing `samplePlaylist` (total by
construction; the fallback branch is never taken). -/
def sampleParsed : PlaylistModel :=
  match parse_m3u8 joinConcat samplePlaylist sampleBase with
  | Except.ok r => r
  | Except.error _ => initModel sampleBase

/-- C10: after parsing any single playlist body, the sum over all
`EventGroup`s in `grouped_events` of the lengths of their `channels`
lists equals the number of `ChannelEntry` records in the model's
`events` list — every accepted event entry is recorded exactly once in
`events` and exactly once as a `ChannelRef` in its group. -/
theorem claim_C10 {join : Str → Str → Str} {content base : Str} {r : PlaylistModel}
    (hp : parse_m3u8 join content base = Except.ok r) :
    sumChannels r.grouped_events = countChannelEvents r.events := by
  rw [parse_grouped_eq_buildGroups hp, sumChannels_buildGroups, countChannelEvents_eq_length]

/-- Witness for C10 on a concrete playlist (two channel entries, one
program-date-time event). -/
theorem claim_C10_witness :
    parse_m3u8 joinConcat samplePlaylist sampleBase = Except.ok sampleParsed ∧
    sumChannels sampleParsed.grouped_events = countChannelEvents sampleParsed.events :=
  ⟨by rfl, @claim_C10 joinConcat samplePlaylist sampleBase sampleParsed (by rfl)⟩

/-! ## Claim C3 -/

/-- C3: for every playlist text and every event title, the first
`ChannelEntry` (in line order) with that grouping key seeds the
`EventGroup`'s `event_time`, `event_date` and `category`, and the
group's `channels` list consists of the references of *all* entries
with that key in encounter order — subsequent entries only append,
never modifying the seeded fields. -/
theorem claim_C3 {join : Str → Str → Str} {content base : Str} {r : PlaylistModel}
    {t : Str} {g : EventGroup}
    (hp : parse_m3u8 join content base = Except.ok r)
    (hg : List.lookup t r.grouped_events = some g) :
    ∃ e0 rest, (chEntries r.events).filter (fun e => keyOf e == t) = e0 :: rest ∧
      g.event_time = e0.event_time ∧ g.event_date = e0.event_date ∧ g.category = none ∧
      g.channels = ((chEntries r.events).filter (fun e => keyOf e == t)).map chanRef := by
  rw [parse_grouped_eq_buildGroups hp, lookup_buildGroups] at hg
  cases hes : (chEntries r.events).filter (fun e => keyOf e == t) with
  | nil => rw [hes] at hg; simp at hg
  | cons e0 rest =>
    rw [hes] at hg
    simp only [List.head?, Option.map_some] at hg
    have hgv := (Option.some.injEq _ _).mp hg
    refine ⟨e0, rest, rfl, ?_, ?_, ?_, ?_⟩ <;> rw [← hgv]

/-- The group keyed `Final` in the sample model. -/
def sampleGroup : EventGroup :=
  (List.lookup sampleTitle sampleParsed.grouped_events).getD
    { event_title := [], event_time := none, event_date := none, category := none,
      channels := [] }

/-- Witness for C3: two entries titled `Final` at `01:00AM` and
`01:05AM`; the group keeps the first entry's fields and lists both
channels. -/
theorem claim_C3_witness :
    parse_m3u8 joinConcat samplePlaylist sampleBase = Except.ok sampleParsed ∧
    List.lookup sampleTitle sampleParsed.grouped_events = some sampleGroup ∧
    (∃ e0 rest,
      (chEntries sampleParsed.events).filter (fun e => keyOf e == sampleTitle) = e0 :: rest ∧
      sampleGroup.event_time = e0.event_time ∧ sampleGroup.event_date = e0.event_date ∧
      sampleGroup.category = none ∧
      sampleGroup.channels =
        ((chEntries sampleParsed.events).filter (fun e => keyOf e == sampleTitle)).map chanRef) :=
  ⟨by rfl, by rfl,
    @claim_C3 joinConcat samplePlaylist sampleBase sampleParsed sampleTitle sampleGroup
      (by rfl) (by rfl)⟩

end M3U8

namespace M3U8

/-- Appending a channel entry bumps the channel-event count. -/
theorem countChannelEvents_append_channel (evs : List TimedEvent) (e : ChannelEntry) :
    countChannelEvents (evs ++ [TimedEvent.channel e]) = countChannelEvents evs + 1 := by
  simp [countChannelEvents, List.countP_append, List.countP_cons, isChannelEv]

/-- Appending a non-channel event leaves the channel-event count. -/
theorem countChannelEvents_append_non (evs : List TimedEvent) (ev : TimedEvent)
    (h : isChannelEv ev = false) :
    countChannelEvents (evs ++ [ev]) = countChannelEvents evs := by
  simp [countChannelEvents, List.countP_append, List.countP_cons, h]

/-- An `#EXTINF` with a following line adds exactly one record: either
one segment or one channel event. -/
theorem extinfStep_count (join : Str → Str → Str) (base : Str) (info : ExtinfInfo)
    (nxt : Str) (st : PlaylistModel) :
    (extinfStep join base info (some nxt) st).segments.length +
      countChannelEvents (extinfStep join base info (some nxt) st).events =
    st.segments.length + countChannelEvents st.events + 1 := by
  cases ht : info.title with
  | none =>
    simp [extinfStep, ht, countChannelEvents_append_non]
    omega
  | some t =>
    by_cases he : is_event_entry t = true
    · simp [extinfStep, ht, he, applyChannelEntry, countChannelEvents_append_channel]
      omega
    · simp [extinfStep, ht, he, countChannelEvents_append_non]
      omega

/-- A `#EXT-X-STREAM-INF` never touches segments or events. -/
theorem streamInfStep_count (join : Str → Str → Str) (base line : Str) (nx : Option Str)
    (st : PlaylistModel) :
    (streamInfStep join base line nx st).segments.length +
      countChannelEvents (streamInfStep join base line nx st).events =
    st.segments.length + countChannelEvents st.events := by
  cases nx with
  | none => rfl
  | some nxt => rfl

set_option maxHeartbeats 4000000 in
/-- Along a successful run of the scanning loop, the number of appended
segments plus channel events is exactly the number of processed
`#EXTINF` directives with a following line. -/
theorem parseLoop_count {join : Str → Str → Str} {base : Str} :
    ∀ n (lines : List Str), lines.length ≤ n → ∀ i st fin,
      parseLoop join base lines i st = Except.ok fin →
      fin.segments.length + countChannelEvents fin.events =
        st.segments.length + countChannelEvents st.events + processedExtinfCount lines := by
  intro n
  induction n with
  | zero =>
    intro lines hlen i st fin hp
    cases lines with
    | nil =>
      simp only [parseLoop, Except.ok.injEq] at hp
      subst hp
      simp [processedExtinfCount]
    | cons a t => simp at hlen
  | succ n ih =>
    intro lines hlen i st fin hp
    cases lines with
    | nil =>
      simp only [parseLoop, Except.ok.injEq] at hp
      subst hp
      simp [processedExtinfCount]
    | cons line rest =>
      rw [parseLoop] at hp
      cases hs : stepLine join base line rest.head? i st with
      | error e => rw [hs] at hp; exact absurd hp (by simp)
      | ok p =>
        obtain ⟨st1, b⟩ := p
        rw [hs] at hp
        have hlen' : rest.length ≤ n := by simp at hlen; omega
        unfold stepLine at hs
        split at hs
        · rename_i hv
          split at hs
          · exact absurd hs (by simp)
          · simp only [Except.ok.injEq, Prod.mk.injEq] at hs
            obtain ⟨h1, h2⟩ := hs
            subst h1; subst h2
            simp only at hp
            have hrec := ih rest hlen' _ _ _ hp
            have hpec : processedExtinfCount (line :: rest) = processedExtinfCount rest := by
              rw [processedExtinfCount.eq_def]
              simp [hv]
            rw [hpec]
            simp only at hrec
            omega
        · rename_i hv
          split at hs
          · rename_i htd
            split at hs
            · exact absurd hs (by simp)
            · split at hs
              · exact absurd hs (by simp)
              · simp only [Except.ok.injEq, Prod.mk.injEq] at hs
                obtain ⟨h1, h2⟩ := hs
                subst h1; subst h2
                simp only at hp
                have hrec := ih rest hlen' _ _ _ hp
                have hpec : processedExtinfCount (line :: rest) = processedExtinfCount rest := by
                  rw [processedExtinfCount.eq_def]
                  simp [hv, htd]
                rw [hpec]
                simp only at hrec
                omega
          · rename_i htd
            split at hs
            · rename_i hms
              split at hs
              · exact absurd hs (by simp)
              · split at hs
                · exact absurd hs (by simp)
                · simp only [Except.ok.injEq, Prod.mk.injEq] at hs
                  obtain ⟨h1, h2⟩ := hs
                  subst h1; subst h2
                  simp only at hp
                  have hrec := ih rest hlen' _ _ _ hp
                  have hpec : processedExtinfCount (line :: rest) = processedExtinfCount rest := by
                    rw [processedExtinfCount.eq_def]
                    simp [hv, htd, hms]
                  rw [hpec]
                  simp only at hrec
                  omega
            · rename_i hms
              split at hs
              · rename_i hsi
                simp only [Except.ok.injEq, Prod.mk.injEq] at hs
                obtain ⟨h1, h2⟩ := hs
                subst h1; subst h2
                simp only at hp
                have hsc := streamInfStep_count join base (pyStrip line) rest.head? st
                cases rest with
                | nil =>
                  simp only [Except.ok.injEq] at hp
                  subst hp
                  have hpec : processedExtinfCount (line :: ([] : List Str)) = 0 := by
                    rw [processedExtinfCount.eq_def]
                    simp [hv, htd, hms, hsi]
                  rw [hpec]
                  omega
                | cons a rest2 =>
                  simp only at hp
                  have hrec := ih rest2 (by simp at hlen; omega) _ _ _ hp
                  have hpec : processedExtinfCount (line :: a :: rest2) =
                      processedExtinfCount rest2 := by
                    rw [processedExtinfCount.eq_def]
                    simp [hv, htd, hms, hsi]
                  rw [hpec]
                  omega
              · rename_i hsi
                split at hs
                · rename_i hei
                  split at hs
                  · exact absurd hs (by simp)
                  · rename_i info hinfo
                    simp only [Except.ok.injEq, Prod.mk.injEq] at hs
                    obtain ⟨h1, h2⟩ := hs
                    subst h1; subst h2
                    simp only at hp
                    cases rest with
                    | nil =>
                      simp only [Except.ok.injEq] at hp
                      subst hp
                      have hpec : processedExtinfCount (line :: ([] : List Str)) = 0 := by
                        rw [processedExtinfCount.eq_def]
                        simp [hv, htd, hms, hsi, hei]
                      rw [hpec]
                      simp [extinfStep]
                    | cons a rest2 =>
                      simp only at hp
                      have hrec := ih rest2 (by simp at hlen; omega) _ _ _ hp
                      have hsc := extinfStep_count join base info a st
                      have hpec : processedExtinfCount (line :: a :: rest2) =
                          1 + processedExtinfCount rest2 := by
                        rw [processedExtinfCount.eq_def]
                        simp [hv, htd, hms, hsi, hei]
                      rw [hpec]
                      simp only [List.head?_cons] at hrec
                      omega
                · rename_i hei
                  have hone : st1.segments.length + countChannelEvents st1.events =
                      st.segments.length + countChannelEvents st.events ∧ b = false := by
                    split at hs
                    · split at hs
                      · simp only [Except.ok.injEq, Prod.mk.injEq] at hs
                        obtain ⟨h1, h2⟩ := hs
                        subst h1
                        refine ⟨?_, h2.symm⟩
                        rw [countChannelEvents_append_non] <;> rfl
                      · exact absurd hs (by simp)
                    · split at hs
                      · split at hs
                        · exact absurd hs (by simp)
                        · simp only [Except.ok.injEq, Prod.mk.injEq] at hs
                          obtain ⟨h1, h2⟩ := hs
                          subst h1
                          refine ⟨?_, h2.symm⟩
                          rw [countChannelEvents_append_non] <;> rfl
                      · split at hs
                        · simp only [Except.ok.injEq, Prod.mk.injEq] at hs
                          obtain ⟨h1, h2⟩ := hs
                          subst h1
                          refine ⟨?_, h2.symm⟩
                          rw [countChannelEvents_append_non] <;> rfl
                        · split at hs
                          · simp only [Except.ok.injEq, Prod.mk.injEq] at hs
                            obtain ⟨h1, h2⟩ := hs
                            subst h1
                            refine ⟨?_, h2.symm⟩
                            rw [countChannelEvents_append_non] <;> rfl
                          · simp only [Except.ok.injEq, Prod.mk.injEq] at hs
                            obtain ⟨h1, h2⟩ := hs
                            subst h1
                            exact ⟨rfl, h2.symm⟩
                  obtain ⟨hsc, hb⟩ := hone
                  subst hb
                  simp only at hp
                  have hrec := ih rest hlen' _ _ _ hp
                  have hpec : processedExtinfCount (line :: rest) = processedExtinfCount rest := by
                    rw [processedExtinfCount.eq_def]
                    simp [hv, htd, hms, hsi, hei]
                  rw [hpec]
                  omega

end M3U8

namespace M3U8

/-- A playlist in which the only `#EXTINF` line is followed by a
directive line, not a URI line. -/
def c4cexPlaylist : Str := ("#EXTINF:10,x\n#EXT-X-CUE-IN").data

/-- Its parse result (total by construction). -/
def c4cexParsed : PlaylistModel :=
  match parse_m3u8 joinConcat c4cexPlaylist sampleBase with
  | Except.ok r => r
  | Except.error _ => initModel sampleBase

/-- Counterexample to C4 as frozen: the parser still records a segment
for an `#EXTINF` whose follower is a directive line, so the left side is
1 while the number of `#EXTINF` lines followed by a non-directive line
is 0. -/
theorem claim_C4_counterexample :
    parse_m3u8 joinConcat c4cexPlaylist sampleBase = Except.ok c4cexParsed ∧
    c4cexParsed.segments.length + countChannelEvents c4cexParsed.events = 1 ∧
    specUriCount (splitOnChar '\n' (pyStrip c4cexPlaylist)) = 0 :=
  ⟨by rfl, by decide, by decide⟩

/-- C4 (amended): the number of `MediaSegment`s plus `ChannelEntry`
events equals the number of `#EXTINF` lines that the scanning cursor
processes as directives (a line consumed as the URI continuation of a
preceding paired directive is not processed) and that have at least one
following line of any kind. -/
theorem claim_C4 {join : Str → Str → Str} {content base : Str} {r : PlaylistModel}
    (hp : parse_m3u8 join content base = Except.ok r) :
    r.segments.length + countChannelEvents r.events =
      processedExtinfCount (splitOnChar '\n' (pyStrip content)) := by
  unfold parse_m3u8 at hp
  have h := @parseLoop_count join base (splitOnChar '\n' (pyStrip content)).length
    (splitOnChar '\n' (pyStrip content)) (le_refl _) 0 (initModel base) r hp
  simpa [initModel, countChannelEvents] using h

/-- Witness for the amended C4 on the sample playlist (two processed
`#EXTINF` directives with following lines). -/
theorem claim_C4_witness :
    parse_m3u8 joinConcat samplePlaylist sampleBase = Except.ok sampleParsed ∧
    sampleParsed.segments.length + countChannelEvents sampleParsed.events =
      processedExtinfCount (splitOnChar '\n' (pyStrip samplePlaylist)) :=
  ⟨by rfl, @claim_C4 joinConcat samplePlaylist sampleBase sampleParsed (by rfl)⟩

end M3U8

namespace M3U8

/-- A line that starts with `#` does not start with `http`. -/
theorem hash_not_http {s : Str} (h : pyStartsWith ("#".data) s = true) :
    pyStartsWith ("http".data) s = false := by
  cases s with
  | nil => simp [pyStartsWith, List.isPrefixOf] at h
  | cons c t =>
    have hc : '#' = c := by
      simpa [pyStartsWith, List.isPrefixOf] using h
    rw [← hc]
    rfl

/-! ## Claim C1 -/

/-- A `TARGETDURATION` directive with a non-numeric token. -/
def c1cexPlaylist : Str := ("#EXT-X-TARGETDURATION:abc").data

/-- Counterexample to C1 as frozen: a non-numeric token after
`#EXT-X-TARGETDURATION` makes `parse_m3u8` raise (`int()` raises
`ValueError`), so parsing does not continue and no model is returned. -/
theorem claim_C1_counterexample :
    isErr (parse_m3u8 joinConcat c1cexPlaylist sampleBase) = true := by decide

/-- C1 (amended): for a directive line starting with
`#EXT-X-TARGETDURATION` or `#EXT-X-MEDIA-SEQUENCE` whose required
numeric token is absent (no `:` piece) or non-numeric, the scanning
loop raises an error — the remaining lines are not parsed and no model
is produced (unlike the regex-extracted numeric fields, which fail
softly). -/
theorem claim_C1 (join : Str → Str → Str) (base : Str) (line : Str) (rest : List Str)
    (i : ℕ) (st : PlaylistModel)
    (hv : pyStartsWith ("#EXT-X-VERSION".data) (pyStrip line) = false)
    (hcase : pyStartsWith ("#EXT-X-TARGETDURATION".data) (pyStrip line) = true
      ∨ (pyStartsWith ("#EXT-X-TARGETDURATION".data) (pyStrip line) = false ∧
         pyStartsWith ("#EXT-X-MEDIA-SEQUENCE".data) (pyStrip line) = true))
    (htok : Option.bind ((splitOnChar ':' (pyStrip line)).get? 1) pyInt? = none) :
    ∃ e, parseLoop join base (line :: rest) i st = Except.error e := by
  have hstep : ∃ e, stepLine join base line rest.head? i st = Except.error e := by
    cases hg : (splitOnChar ':' (pyStrip line)).get? 1 with
    | none =>
      have hg' := hg
      simp only [List.get?_eq_getElem?] at hg'
      refine ⟨"IndexError: list index out of range", ?_⟩
      rcases hcase with htd | ⟨htd, hms⟩
      · simp [stepLine, hv, htd, hg']
      · simp [stepLine, hv, htd, hms, hg']
    | some v =>
      have hg' := hg
      simp only [List.get?_eq_getElem?] at hg'
      have hpi : pyInt? v = none := by
        rw [hg] at htok
        simpa using htok
      refine ⟨"ValueError: invalid literal for int() with base 10", ?_⟩
      rcases hcase with htd | ⟨htd, hms⟩
      · simp [stepLine, hv, htd, hg', hpi]
      · simp [stepLine, hv, htd, hms, hg', hpi]
  obtain ⟨e, hse⟩ := hstep
  refine ⟨e, ?_⟩
  rw [parseLoop, hse]

/-- Witness for the amended C1 at the concrete line
`#EXT-X-TARGETDURATION:abc`. -/
theorem claim_C1_witness :
    pyStartsWith ("#EXT-X-VERSION".data) (pyStrip c1cexPlaylist) = false ∧
    pyStartsWith ("#EXT-X-TARGETDURATION".data) (pyStrip c1cexPlaylist) = true ∧
    Option.bind ((splitOnChar ':' (pyStrip c1cexPlaylist)).get? 1) pyInt? = none ∧
    (∃ e, parseLoop joinConcat sampleBase [c1cexPlaylist] 0 (initModel sampleBase) =
      Except.error e) :=
  ⟨by decide, by decide, by decide,
    claim_C1 joinConcat sampleBase c1cexPlaylist [] 0 (initModel sampleBase)
      (by decide) (Or.inl (by decide)) (by decide)⟩

/-! ## Claim C5 -/

/-- A playlist whose single line is a `STREAM-INF` directive. -/
def c5cexPlaylist : Str := ("#EXT-X-STREAM-INF:BANDWIDTH=5").data

/-- Counterexample to C5 as frozen: a final `#EXT-X-STREAM-INF` with no
following line is *dropped* — the parse succeeds but the model records
no stream variant (and no segment or event), rather than recording the
directive without a URL. -/
theorem claim_C5_counterexample :
    parse_m3u8 joinConcat c5cexPlaylist sampleBase = Except.ok (initModel sampleBase) ∧
    (initModel sampleBase).streams = [] ∧ (initModel sampleBase).segments = [] ∧
    (initModel sampleBase).events = [] := by
  refine ⟨by rfl, rfl, rfl, rfl⟩

/-- C5 (amended): when the final line is a `#EXT-X-STREAM-INF` or a
decodable `#EXTINF` directive with no following line, the directive is
silently dropped: the parse succeeds and the model is unchanged by that
line (nothing is recorded for it, and no error is raised). -/
theorem claim_C5 (join : Str → Str → Str) (base : Str) (line : Str) (i : ℕ)
    (st : PlaylistModel)
    (hv : pyStartsWith ("#EXT-X-VERSION".data) (pyStrip line) = false)
    (htd : pyStartsWith ("#EXT-X-TARGETDURATION".data) (pyStrip line) = false)
    (hms : pyStartsWith ("#EXT-X-MEDIA-SEQUENCE".data) (pyStrip line) = false)
    (hcase : pyStartsWith ("#EXT-X-STREAM-INF".data) (pyStrip line) = true
      ∨ (pyStartsWith ("#EXT-X-STREAM-INF".data) (pyStrip line) = false ∧
         pyStartsWith ("#EXTINF".data) (pyStrip line) = true ∧
         ∃ info, parse_extinf (pyStrip line) = Except.ok info)) :
    parseLoop join base [line] i st = Except.ok st := by
  rw [parseLoop]
  rcases hcase with hsi | ⟨hsi, hei, info, hinfo⟩
  · have hs : stepLine join base line (List.head? []) i st = Except.ok (st, true) := by
      simp [stepLine, hv, htd, hms, hsi, streamInfStep]
    rw [hs]
  · have hs : stepLine join base line (List.head? []) i st = Except.ok (st, true) := by
      simp [stepLine, hv, htd, hms, hsi, hei, hinfo, extinfStep]
    rw [hs]

/-- Witness for the amended C5 at the concrete final line
`#EXT-X-STREAM-INF:BANDWIDTH=5`. -/
theorem claim_C5_witness :
    pyStartsWith ("#EXT-X-STREAM-INF".data) (pyStrip c5cexPlaylist) = true ∧
    parseLoop joinConcat sampleBase [c5cexPlaylist] 0 (initModel sampleBase) =
      Except.ok (initModel sampleBase) :=
  ⟨by decide,
    claim_C5 joinConcat sampleBase c5cexPlaylist 0 (initModel sampleBase)
      (by decide) (by decide) (by decide) (Or.inl (by decide))⟩

end M3U8

namespace M3U8

/-! ## Claim C9 -/

/-- C9: when the line after a `#EXT-X-STREAM-INF` or a decodable
`#EXTINF` directive is itself a directive line (starting with `#`), the
parser consumes it as the URI continuation — the appended record's
`url` is the resolved directive text (`urljoin`'d, since a `#` line
never starts with `http`) — and the loop continues after it, so that
following directive is never classified in its own right. -/
theorem claim_C9 (join : Str → Str → Str) (base : Str) (l1 l2 : Str) (rest : List Str)
    (i : ℕ) (st : PlaylistModel)
    (hv : pyStartsWith ("#EXT-X-VERSION".data) (pyStrip l1) = false)
    (htd : pyStartsWith ("#EXT-X-TARGETDURATION".data) (pyStrip l1) = false)
    (hms : pyStartsWith ("#EXT-X-MEDIA-SEQUENCE".data) (pyStrip l1) = false)
    (hcase : pyStartsWith ("#EXT-X-STREAM-INF".data) (pyStrip l1) = true
      ∨ (pyStartsWith ("#EXT-X-STREAM-INF".data) (pyStrip l1) = false ∧
         pyStartsWith ("#EXTINF".data) (pyStrip l1) = true ∧
         ∃ info, parse_extinf (pyStrip l1) = Except.ok info))
    (hdir : pyStartsWith ("#".data) (pyStrip l2) = true) :
    ∃ st', parseLoop join base (l1 :: l2 :: rest) i st = parseLoop join base rest (i + 2) st' ∧
      ((∃ v, st'.streams = st.streams ++ [v] ∧ v.url = join base (pyStrip l2)) ∨
       (∃ s, st'.segments = st.segments ++ [s] ∧ s.url = join base (pyStrip l2)) ∨
       (∃ e, st'.events = st.events ++ [TimedEvent.channel e] ∧
         e.url = join base (pyStrip l2))) := by
  have hres : resolveUrl join base l2 = join base (pyStrip l2) := by
    unfold resolveUrl
    rw [hash_not_http hdir]
    simp
  rcases hcase with hsi | ⟨hsi, hei, info, hinfo⟩
  · refine ⟨streamInfStep join base (pyStrip l1) (some l2) st, ?_, ?_⟩
    · have hs : stepLine join base l1 (List.head? (l2 :: rest)) i st =
          Except.ok (streamInfStep join base (pyStrip l1) (some l2) st, true) := by
        simp [stepLine, hv, htd, hms, hsi]
      rw [parseLoop, hs]
    · exact Or.inl ⟨mkVariant (parse_stream_inf (pyStrip l1)) (resolveUrl join base l2),
        by simp [streamInfStep], by simp [mkVariant, hres]⟩
  · refine ⟨extinfStep join base info (some l2) st, ?_, ?_⟩
    · have hs : stepLine join base l1 (List.head? (l2 :: rest)) i st =
          Except.ok (extinfStep join base info (some l2) st, true) := by
        simp [stepLine, hv, htd, hms, hsi, hei, hinfo]
      rw [parseLoop, hs]
    · cases ht : info.title with
      | none =>
        exact Or.inr (Or.inl ⟨mkSegment info (resolveUrl join base l2),
          by simp [extinfStep, ht], by simp [mkSegment, hres]⟩)
      | some t =>
        by_cases he : is_event_entry t = true
        · refine Or.inr (Or.inr ⟨mkChannelEntry info t (resolveUrl join base l2), ?_, ?_⟩)
          · simp [extinfStep, ht, he, applyChannelEntry]
          · simp [mkChannelEntry, hres]
        · refine Or.inr (Or.inl ⟨mkSegment info (resolveUrl join base l2), ?_, ?_⟩)
          · simp [extinfStep, ht, he]
          · simp [mkSegment, hres]

/-- Witness for C9: a `STREAM-INF` directive whose next line is an
`#EXTINF` directive; the latter is consumed as the variant's url and
never processed (no segment is created for it). -/
theorem claim_C9_witness :
    pyStartsWith ("#EXT-X-STREAM-INF".data) (pyStrip c5cexPlaylist) = true ∧
    pyStartsWith ("#".data) (pyStrip c4cexPlaylist) = true ∧
    (∃ st', parseLoop joinConcat sampleBase [c5cexPlaylist, c4cexPlaylist] 0
        (initModel sampleBase) =
        parseLoop joinConcat sampleBase [] 2 st' ∧
      ((∃ v, st'.streams = (initModel sampleBase).streams ++ [v] ∧
          v.url = joinConcat sampleBase (pyStrip c4cexPlaylist)) ∨
       (∃ s, st'.segments = (initModel sampleBase).segments ++ [s] ∧
          s.url = joinConcat sampleBase (pyStrip c4cexPlaylist)) ∨
       (∃ e, st'.events = (initModel sampleBase).events ++ [TimedEvent.channel e] ∧
          e.url = joinConcat sampleBase (pyStrip c4cexPlaylist)))) :=
  ⟨by decide, by decide,
    claim_C9 joinConcat sampleBase c5cexPlaylist c4cexPlaylist [] 0 (initModel sampleBase)
      (by decide) (by decide) (by decide) (Or.inl (by decide)) (by decide)⟩

end M3U8

namespace M3U8

/-! ## Claim C7 -/

/-- C7: an `#EXTINF` duration token of exactly `-1` yields an absent
duration (and no error); any other token that `float()` accepts yields
that token's value. -/
theorem claim_C7 (line tok : Str)
    (h : findKeyRun ("#EXTINF:".data) extinfClass line = some tok) :
    (tok = ['-', '1'] → ∃ info, parse_extinf line = Except.ok info ∧ info.duration = none) ∧
    (∀ q : ℚ, tok ≠ ['-', '1'] → pyFloat? tok = some q →
      ∃ info, parse_extinf line = Except.ok info ∧ info.duration = some q) := by
  constructor
  · intro ht
    exact ⟨{ duration := none,
             logo := findQuotedAttr ("tvg-logo=".data ++ ['"']) line,
             group_title := findQuotedAttr ("group-title=".data ++ ['"']) line,
             title := titleOf line },
      by simp [parse_extinf, h, ht], rfl⟩
  · intro q hne hq
    exact ⟨{ duration := some q,
             logo := findQuotedAttr ("tvg-logo=".data ++ ['"']) line,
             group_title := findQuotedAttr ("group-title=".data ++ ['"']) line,
             title := titleOf line },
      by simp [parse_extinf, h, hne, hq], rfl⟩

/-- An `#EXTINF` line with the `-1` sentinel. -/
def c7Line1 : Str := ("#EXTINF:-1,live feed").data

/-- An `#EXTINF` line with an ordinary decimal duration. -/
def c7Line2 : Str := ("#EXTINF:10.5,segment").data

/-- Witness for C7 at both a sentinel line and a decimal line. -/
theorem claim_C7_witness :
    findKeyRun ("#EXTINF:".data) extinfClass c7Line1 = some ['-', '1'] ∧
    (∃ info, parse_extinf c7Line1 = Except.ok info ∧ info.duration = none) ∧
    (∃ q info, pyFloat? ['1', '0', '.', '5'] = some q ∧
      parse_extinf c7Line2 = Except.ok info ∧ info.duration = some q) := by
  refine ⟨by decide, (claim_C7 c7Line1 ['-', '1'] (by decide)).1 (by decide), ?_⟩
  cases hq : pyFloat? ['1', '0', '.', '5'] with
  | none =>
    have hsome : (pyFloat? ['1', '0', '.', '5']).isSome = true := by decide
    rw [hq] at hsome
    exact absurd hsome (by simp)
  | some q =>
    obtain ⟨info, h1, h2⟩ :=
      (claim_C7 c7Line2 ['1', '0', '.', '5'] (by decide)).2 q (by decide) hq
    exact ⟨q, info, rfl, h1, h2⟩

/-! ## Claim C6 -/

/-- The captured time token is never empty. -/
theorem matchTimeAt_cap_ne_nil {l cap r : Str} (h : matchTimeAt l = some (cap, r)) :
    cap ≠ [] := by
  unfold matchTimeAt at h
  split at h
  · split at h
    · split at h
      · split at h
        · cases h; simp
        · exact absurd h (by simp)
      · exact absurd h (by simp)
    · split at h
      · split at h
        · split at h
          · cases h; simp
          · exact absurd h (by simp)
        · exact absurd h (by simp)
      · exact absurd h (by simp)
  · exact absurd h (by simp)

/-- The time extracted by `findTime` is never the empty string. -/
theorem findTime_ne_nil {t cap : Str} (h : findTime t = some cap) : cap ≠ [] := by
  induction t with
  | nil => simp [findTime] at h
  | cons c cs ih =>
    rw [findTime] at h
    cases hm : matchTimeAt (c :: cs) with
    | some p =>
      obtain ⟨cap0, r0⟩ := p
      rw [hm] at h
      simp only [Option.some.injEq] at h
      exact h ▸ matchTimeAt_cap_ne_nil hm
    | none =>
      rw [hm] at h
      exact ih h

/-- The date captured by `matchDateAt` is never empty. -/
theorem matchDateAt_cap_ne_nil {l cap : Str} (h : matchDateAt l = some cap) : cap ≠ [] := by
  unfold matchDateAt at h
  split at h
  · split at h
    · split at h
      · split at h
        · split at h
          · split at h
            · split at h
              · cases h
                simp
              · exact absurd h (by simp)
            · exact absurd h (by simp)
          · exact absurd h (by simp)
        · exact absurd h (by simp)
      · exact absurd h (by simp)
    · exact absurd h (by simp)
  · exact absurd h (by simp)

/-- The date extracted by `findDate` is never the empty string. -/
theorem findDate_ne_nil {t cap : Str} (h : findDate t = some cap) : cap ≠ [] := by
  induction t with
  | nil => simp [findDate] at h
  | cons c cs ih =>
    rw [findDate] at h
    cases hm : matchDateAt (c :: cs) with
    | some cap0 =>
      rw [hm] at h
      simp only [Option.some.injEq] at h
      exact h ▸ matchDateAt_cap_ne_nil hm
    | none =>
      rw [hm] at h
      exact ih h

/-- The `event_time` field is the `findTime` capture in every branch. -/
theorem parse_event_title_time (t : Str) :
    (parse_event_title t).event_time = findTime t := by
  unfold parse_event_title
  split
  · split <;> rfl
  · rfl

/-- The `event_date` field is the `findDate` capture in every branch. -/
theorem parse_event_title_date (t : Str) :
    (parse_event_title t).event_date = findDate t := by
  unfold parse_event_title
  split
  · split <;> rfl
  · rfl

/-- A title with a pipe and nothing after it: accepted by the event
grammar, yet its `event_title` is set to the *empty string*. -/
def c6cexTitle : Str := ("1:00AM|").data

/-- Counterexample to C6 as frozen: on the accepted title `1:00AM|` the
grammar cannot locate any title text, but `event_title` is set to the
empty string rather than left absent. -/
theorem claim_C6_counterexample :
    is_event_entry c6cexTitle = true ∧
    (parse_event_title c6cexTitle).event_title = some [] := by
  exact ⟨by decide, by decide⟩

/-- C6 (amended): `event_time` and `event_date` are either located,
non-empty captures or absent; `event_title` on the other hand is always
present (possibly as the empty string, as the counterexample shows),
and `channel_name`, when present, is the trimmed content of a trailing
bracketed token. -/
theorem claim_C6 (t : Str) :
    (parse_event_title t).event_time ≠ some [] ∧
    (parse_event_title t).event_date ≠ some [] ∧
    (parse_event_title t).event_title ≠ none := by
  refine ⟨?_, ?_, ?_⟩
  · rw [parse_event_title_time]
    intro h
    exact findTime_ne_nil h rfl
  · rw [parse_event_title_date]
    intro h
    exact findDate_ne_nil h rfl
  · unfold parse_event_title
    split
    · split <;> simp
    · simp

/-- Witness for the amended C6 at a concrete event title. -/
theorem claim_C6_witness :
    (parse_event_title (("01:00AM|Lakers vs Celtics [HD Feed]").data)).event_time ≠ some [] ∧
    (parse_event_title (("01:00AM|Lakers vs Celtics [HD Feed]").data)).event_date ≠ some [] ∧
    (parse_event_title (("01:00AM|Lakers vs Celtics [HD Feed]").data)).event_title ≠ none :=
  claim_C6 (("01:00AM|Lakers vs Celtics [HD Feed]").data)

end M3U8

namespace M3U8

/-! ## Claim C2 -/

/-- A string of the shape `H[H]:MM` immediately followed by `AM`/`PM`
(case-insensitive) — the claim's "time token". -/
def isTimeTok (tok : Str) : Prop :=
  (∃ a b c d x y, tok = [a, b, ':', c, d, x, y] ∧ a.isDigit = true ∧ b.isDigit = true ∧
    c.isDigit = true ∧ d.isDigit = true ∧ isAmPm x y = true) ∨
  (∃ a c d x y, tok = [a, ':', c, d, x, y] ∧ a.isDigit = true ∧
    c.isDigit = true ∧ d.isDigit = true ∧ isAmPm x y = true)

/-- The claim as frozen: the title contains a time token and a pipe
*anywhere after it*. -/
def claimEventShape (t : Str) : Prop :=
  ∃ pre tok rest, t = pre ++ (tok ++ rest) ∧ isTimeTok tok ∧ '|' ∈ rest

/-- The amended detection rule: the pipe must follow the time token
separated only by whitespace. -/
def amendedEventShape (t : Str) : Prop :=
  ∃ pre tok ws rest, t = pre ++ (tok ++ (ws ++ '|' :: rest)) ∧ isTimeTok tok ∧
    ∀ c ∈ ws, pySpace c = true

/-- Soundness of the head matcher: a match decomposes the string and the
capture is a time token. -/
theorem matchTimeAt_sound {l cap r : Str} (h : matchTimeAt l = some (cap, r)) :
    l = cap ++ r ∧ isTimeTok cap := by
  unfold matchTimeAt at h
  split at h
  · rename_i a b rest1
    split at h
    · rename_i hab
      split at h
      · rename_i c d x y r1
        split at h
        · rename_i hcd
          simp only [Option.some.injEq, Prod.mk.injEq] at h
          obtain ⟨h1, h2⟩ := h
          subst h1
          subst h2
          simp only [Bool.and_eq_true] at hab hcd
          refine ⟨by simp, Or.inl ⟨a, b, c, d, x, y, rfl, hab.1, hab.2, hcd.1.1, hcd.1.2, hcd.2⟩⟩
        · exact absurd h (by simp)
      · exact absurd h (by simp)
    · split at h
      · rename_i hab
        split at h
        · rename_i c d x y r1
          split at h
          · rename_i hcd
            simp only [Option.some.injEq, Prod.mk.injEq] at h
            obtain ⟨h1, h2⟩ := h
            subst h1
            subst h2
            simp only [Bool.and_eq_true] at hab hcd
            have hb : b = ':' := by simpa using hab.2
            subst hb
            refine ⟨by simp, Or.inr ⟨a, c, d, x, y, rfl, hab.1, hcd.1.1, hcd.1.2, hcd.2⟩⟩
          · exact absurd h (by simp)
        · exact absurd h (by simp)
      · exact absurd h (by simp)
  · exact absurd h (by simp)

/-- Completeness of the head matcher: a time token at the head is
matched, capturing exactly the token. -/
theorem matchTimeAt_complete {tok : Str} (h : isTimeTok tok) (r : Str) :
    matchTimeAt (tok ++ r) = some (tok, r) := by
  rcases h with ⟨a, b, c, d, x, y, htk, ha, hb, hc, hd, hxy⟩ |
    ⟨a, c, d, x, y, htk, ha, hc, hd, hxy⟩
  · subst htk
    simp [matchTimeAt, ha, hb, hc, hd, hxy]
  · subst htk
    have hcol : (':' : Char).isDigit = false := rfl
    simp [matchTimeAt, ha, hc, hd, hxy, hcol]

/-- Dropping whitespace from an all-whitespace run stops exactly at the
pipe. -/
theorem dropWhile_ws_pipe (ws rest : Str) (h : ∀ c ∈ ws, pySpace c = true) :
    (ws ++ '|' :: rest).dropWhile pySpace = '|' :: rest := by
  induction ws with
  | nil =>
    have hp : pySpace '|' = false := rfl
    simp [List.dropWhile, hp]
  | cons w wsr ih =>
    have hw : pySpace w = true := h w (by simp)
    simp only [List.cons_append, List.dropWhile, hw]
    exact ih (fun c hc => h c (by simp [hc]))

/-- The head test of `is_event_entry` holds exactly when the string
starts with a time token, whitespace, and a pipe. -/
theorem eventTokAt_iff (l : Str) :
    eventTokAt l = true ↔ ∃ tok ws rest, l = tok ++ (ws ++ '|' :: rest) ∧ isTimeTok tok ∧
      ∀ c ∈ ws, pySpace c = true := by
  constructor
  · intro h
    unfold eventTokAt at h
    cases hm : matchTimeAt l with
    | none => rw [hm] at h; simp at h
    | some p =>
      obtain ⟨cap, r⟩ := p
      rw [hm] at h
      simp only at h
      obtain ⟨hl, htok⟩ := matchTimeAt_sound hm
      split at h
      · rename_i cs0 hd
        refine ⟨cap, r.takeWhile pySpace, cs0, ?_, htok, ?_⟩
        · rw [hl]
          congr 1
          rw [← hd]
          exact (List.takeWhile_append_dropWhile pySpace r).symm
        · intro c hc
          exact List.mem_takeWhile_imp hc
      · exact absurd h (by simp)
  · rintro ⟨tok, ws, rest, rfl, htok, hws⟩
    unfold eventTokAt
    rw [← List.append_assoc, List.append_assoc, matchTimeAt_complete htok]
    simp only
    rw [dropWhile_ws_pipe ws rest hws]
    rfl

/-- A concrete title whose pipe comes two characters after the time
token. -/
def c2cexTitle : Str := ("1:00AM x|").data

/-- Counterexample to C2 as frozen: `1:00AM x|` contains a time token
and a later pipe, but `is_event_entry` rejects it (the regex requires
the pipe to follow the token with only whitespace in between). -/
theorem claim_C2_counterexample :
    is_event_entry c2cexTitle = false ∧ claimEventShape c2cexTitle :=
  ⟨by decide,
   ⟨[], ['1', ':', '0', '0', 'A', 'M'], [' ', 'x', '|'], by decide,
    Or.inr ⟨'1', '0', '0', 'A', 'M', by decide, by decide, by decide, by decide, by decide⟩,
    by decide⟩⟩

/-- C2 (amended): `is_event_entry` accepts a title iff it contains a
time token `H[H]:MM(AM|PM)` (case-insensitive) followed by a pipe that
is separated from the token only by whitespace. -/
theorem claim_C2 (t : Str) : is_event_entry t = true ↔ amendedEventShape t := by
  induction t with
  | nil =>
    simp only [is_event_entry, Bool.false_eq_true, false_iff]
    rintro ⟨pre, tok, ws, rest, heq, htok, hws⟩
    rcases htok with ⟨a, b, c, d, x, y, htk, -⟩ | ⟨a, c, d, x, y, htk, -⟩ <;>
      subst htk <;> simp at heq
  | cons c cs ih =>
    rw [is_event_entry]
    simp only [Bool.or_eq_true]
    constructor
    · intro h
      rcases h with h | h
      · obtain ⟨tok, ws, rest, heq, htok, hws⟩ := (eventTokAt_iff _).mp h
        exact ⟨[], tok, ws, rest, by simpa using heq, htok, hws⟩
      · obtain ⟨pre, tok, ws, rest, heq, htok, hws⟩ := ih.mp h
        exact ⟨c :: pre, tok, ws, rest, by simp [heq], htok, hws⟩
    · rintro ⟨pre, tok, ws, rest, heq, htok, hws⟩
      cases pre with
      | nil =>
        left
        exact (eventTokAt_iff _).mpr ⟨tok, ws, rest, by simpa using heq, htok, hws⟩
      | cons p0 pre' =>
        right
        apply ih.mpr
        simp only [List.cons_append, List.cons.injEq] at heq
        exact ⟨pre', tok, ws, rest, heq.2, htok, hws⟩

end M3U8

namespace M3U8

/-! ## Claim C8 -/

/-- An element found by index is a member of the list. -/
theorem mem_of_getElem_opt {α : Type} {l : List α} {k : ℕ} {a : α} (h : l[k]? = some a) :
    a ∈ l := by
  induction l generalizing k with
  | nil => simp at h
  | cons x t ih =>
    cases k with
    | zero =>
      simp only [List.getElem?_cons_zero, Option.some.injEq] at h
      subst h
      exact List.mem_cons_self _ _
    | succ k =>
      simp only [List.getElem?_cons_succ] at h
      exact List.mem_cons_of_mem _ (ih h)

/-- The in-place update of a stream variant with its child playlist's
data (`m3u8_extractor.py:289`–`291`).  Only `segments`, `events` and
`metadata` are copied; the child's own `streams` are discarded, so
resolution recurses exactly one level. -/
def fillVariant (s : StreamVariant) (child : PlaylistModel) : StreamVariant :=
  { s with segments := some child.segments, events := some child.events,
           metadata := some child.metadata }

/-- Specification of the resolution loop: it succeeds whenever every
successfully fetched (non-empty) child body parses, preserves length
and order, leaves variants with failed or empty fetches untouched, and
fills successfully fetched variants with the *child's own* segments,
events and metadata (the child's `streams` are discarded — resolution
does not recurse further). -/
theorem resolveStreams_spec (join : Str → Str → Str) (fetch : Str → Option Str)
    (ss : List StreamVariant)
    (h : ∀ s ∈ ss, ∀ c, fetch s.url = some c → c ≠ [] →
      ∃ child, parse_m3u8 join c s.url = Except.ok child) :
    ∃ ss', resolveStreams join fetch ss = Except.ok ss' ∧ ss'.length = ss.length ∧
      ∀ (k : ℕ) s, ss[k]? = some s → ∃ s', ss'[k]? = some s' ∧
        (fetch s.url = none → s' = s) ∧
        (∀ c, fetch s.url = some c → c = [] → s' = s) ∧
        (∀ c, fetch s.url = some c → c ≠ [] →
          ∃ child, parse_m3u8 join c s.url = Except.ok child ∧
            s' = fillVariant s child) := by
  induction ss with
  | nil =>
    refine ⟨[], rfl, rfl, ?_⟩
    intro k s hk
    simp at hk
  | cons s t ih =>
    obtain ⟨t', ht', hlen, hidx⟩ := ih (fun x hx => h x (List.mem_cons_of_mem _ hx))
    have hs := h s (List.mem_cons_self _ _)
    cases hf : fetch s.url with
    | none =>
      refine ⟨s :: t', ?_, by simp [hlen], ?_⟩
      · unfold resolveStreams
        rw [hf, ht']
      · intro k x hk
        cases k with
        | zero =>
          simp only [List.getElem?_cons_zero, Option.some.injEq] at hk
          subst hk
          refine ⟨s, by simp, fun _ => rfl, ?_, ?_⟩
          · intro c hc
            rw [hf] at hc
            exact absurd hc (by simp)
          · intro c hc
            rw [hf] at hc
            exact absurd hc (by simp)
        | succ k =>
          simp only [List.getElem?_cons_succ] at hk ⊢
          exact hidx k x hk
    | some c =>
      by_cases hce : c = []
      · subst hce
        refine ⟨s :: t', ?_, by simp [hlen], ?_⟩
        · unfold resolveStreams
          rw [hf, ht']
          rfl
        · intro k x hk
          cases k with
          | zero =>
            simp only [List.getElem?_cons_zero, Option.some.injEq] at hk
            subst hk
            refine ⟨s, by simp, fun hc0 => absurd (hf.symm.trans hc0) (by simp),
              fun c0 hc0 _ => rfl, ?_⟩
            intro c0 hc0 hc0ne
            have hc0' : ([] : Str) = c0 := Option.some.inj (hf.symm.trans hc0)
            exact absurd hc0'.symm hc0ne
          | succ k =>
            simp only [List.getElem?_cons_succ] at hk ⊢
            exact hidx k x hk
      · obtain ⟨child, hchild⟩ := hs c hf hce
        have hcef : c.isEmpty = false := by
          cases c with
          | nil => exact absurd rfl hce
          | cons a b => rfl
        refine ⟨fillVariant s child :: t', ?_, by simp [hlen], ?_⟩
        · unfold resolveStreams
          rw [hf, ht']
          simp [hcef, hchild, fillVariant]
        · intro k x hk
          cases k with
          | zero =>
            simp only [List.getElem?_cons_zero, Option.some.injEq] at hk
            subst hk
            refine ⟨fillVariant s child, by simp,
              fun hc0 => absurd (hf.symm.trans hc0) (by simp), ?_, ?_⟩
            · intro c0 hc0 hc0e
              have hc0' : c = c0 := Option.some.inj (hf.symm.trans hc0)
              subst hc0'
              exact absurd hc0e hce
            · intro c0 hc0 hc0ne
              have hc0' : c = c0 := Option.some.inj (hf.symm.trans hc0)
              subst hc0'
              exact ⟨child, hchild, rfl⟩
          | succ k =>
            simp only [List.getElem?_cons_succ] at hk ⊢
            exact hidx k x hk

/-- C8 (amended): on a master playlist, when every successfully fetched
variant body parses without raising, `extract_all` returns the overall
model: a variant whose fetch fails (or yields empty content) keeps its
`segments`/`events`/`metadata` absent, every variant whose fetch
succeeds is filled with its child playlist's segments/events/metadata
(one level only — the child's own streams are discarded), and the
root-level fields are kept intact. -/
theorem claim_C8 (join : Str → Str → Str) (fetch : Str → Option Str) (url content : Str)
    (r : PlaylistModel)
    (h1 : fetch url = some content) (h2 : content ≠ [])
    (h3 : parse_m3u8 join content url = Except.ok r)
    (h4 : r.streams ≠ [])
    (h5 : ∀ s ∈ r.streams, ∀ c, fetch s.url = some c → c ≠ [] →
      ∃ child, parse_m3u8 join c s.url = Except.ok child) :
    ∃ m, extract_all join fetch url = Except.ok (ExtractOutcome.ok m) ∧
      m.base_url = r.base_url ∧ m.segments = r.segments ∧ m.events = r.events ∧
      m.grouped_events = r.grouped_events ∧ m.metadata = r.metadata ∧
      m.streams.length = r.streams.length ∧
      ∀ (k : ℕ) s, r.streams[k]? = some s → ∃ s', m.streams[k]? = some s' ∧
        (fetch s.url = none → s' = s ∧ s'.segments = none ∧ s'.events = none ∧
          s'.metadata = none) ∧
        (∀ c, fetch s.url = some c → c = [] → s' = s) ∧
        (∀ c, fetch s.url = some c → c ≠ [] →
          ∃ child, parse_m3u8 join c s.url = Except.ok child ∧
            s' = fillVariant s child) := by
  obtain ⟨ss', hres, hlen, hidx⟩ := resolveStreams_spec join fetch r.streams h5
  have hce : content.isEmpty = false := by
    cases content with
    | nil => exact absurd rfl h2
    | cons a b => rfl
  have hse : r.streams.isEmpty = false := by
    cases hst : r.streams with
    | nil => exact absurd hst h4
    | cons a b => rfl
  refine ⟨{ r with streams := ss' }, ?_, rfl, rfl, rfl, rfl, rfl, hlen, ?_⟩
  · unfold extract_all
    rw [h1]
    simp only [hce, Bool.false_eq_true, if_false]
    rw [h3]
    simp only [hse, Bool.false_eq_true, if_false]
    rw [hres]
  · intro k s hk
    obtain ⟨s', hs', hnone, hemp, hsome⟩ := hidx k s hk
    refine ⟨s', hs', ?_, hemp, hsome⟩
    intro hf
    obtain ⟨hseg, hev, hmet⟩ := parse_streams_unresolved h3 s (mem_of_getElem_opt hk)
    have := hnone hf
    subst this
    exact ⟨rfl, hseg, hev, hmet⟩

end M3U8

namespace M3U8

/-- Root url of the concrete master-playlist scenario. -/
def c8root : Str := ("http://h/m.m3u8").data

/-- A master playlist with two stream variants. -/
def c8master : Str :=
  ("#EXT-X-STREAM-INF:BANDWIDTH=1\nu1\n#EXT-X-STREAM-INF:BANDWIDTH=2\nu2").data

/-- First variant's resolved url (under `joinConcat`). -/
def c8su1 : Str := c8root ++ ("u1").data

/-- Second variant's resolved url (under `joinConcat`). -/
def c8su2 : Str := c8root ++ ("u2").data

/-- A child body whose parse raises (non-numeric target duration). -/
def c8badChild : Str := ("#EXT-X-TARGETDURATION:x").data

/-- A well-formed child body with one media segment. -/
def c8goodChild : Str := ("#EXTINF:4,s\nseg1.ts").data

/-- A fetch collaborator: the first variant's fetch fails, the second
returns an unparseable body. -/
def c8fetchBad (u : Str) : Option Str :=
  if u = c8root then some c8master
  else if u = c8su1 then none
  else if u = c8su2 then some c8badChild
  else none

/-- A fetch collaborator: the first variant's fetch fails, the second
returns a well-formed body. -/
def c8fetchGood (u : Str) : Option Str :=
  if u = c8root then some c8master
  else if u = c8su1 then none
  else if u = c8su2 then some c8goodChild
  else none

/-- The parsed master playlist of the concrete scenario. -/
def c8rootParsed : PlaylistModel :=
  match parse_m3u8 joinConcat c8master c8root with
  | Except.ok r => r
  | Except.error _ => initModel c8root

/-- Counterexample to C8 as frozen: a master playlist with two variants
where one fetch fails — under a collaborator whose other variant serves
an unparseable body, `extract_all` raises instead of returning the
overall model, so the property does not hold for *every* fetch
collaborator. -/
theorem claim_C8_counterexample :
    parse_m3u8 joinConcat c8master c8root = Except.ok c8rootParsed ∧
    c8rootParsed.streams.length = 2 ∧
    c8fetchBad c8su1 = none ∧
    isErr (extract_all joinConcat c8fetchBad c8root) = true :=
  ⟨by rfl, by decide, by decide, by decide⟩

/-- The parsed good child body. -/
def c8childParsed : PlaylistModel :=
  match parse_m3u8 joinConcat c8goodChild c8su2 with
  | Except.ok r => r
  | Except.error _ => initModel c8su2

/-- Witness for the amended C8: first variant's fetch fails (its fields
stay absent), second variant's fetch succeeds and is populated from its
child playlist, and `extract_all` returns the overall model. -/
theorem claim_C8_witness :
    c8fetchGood c8root = some c8master ∧ c8master ≠ [] ∧
    parse_m3u8 joinConcat c8master c8root = Except.ok c8rootParsed ∧
    c8rootParsed.streams ≠ [] ∧
    (∃ m, extract_all joinConcat c8fetchGood c8root = Except.ok (ExtractOutcome.ok m) ∧
      m.base_url = c8rootParsed.base_url ∧ m.segments = c8rootParsed.segments ∧
      m.events = c8rootParsed.events ∧ m.grouped_events = c8rootParsed.grouped_events ∧
      m.metadata = c8rootParsed.metadata ∧
      m.streams.length = c8rootParsed.streams.length ∧
      ∀ (k : ℕ) s, c8rootParsed.streams[k]? = some s → ∃ s', m.streams[k]? = some s' ∧
        (c8fetchGood s.url = none → s' = s ∧ s'.segments = none ∧ s'.events = none ∧
          s'.metadata = none) ∧
        (∀ c, c8fetchGood s.url = some c → c = [] → s' = s) ∧
        (∀ c, c8fetchGood s.url = some c → c ≠ [] →
          ∃ child, parse_m3u8 joinConcat c s.url = Except.ok child ∧
            s' = fillVariant s child)) := by
  have h5 : ∀ s ∈ c8rootParsed.streams, ∀ c, c8fetchGood s.url = some c → c ≠ [] →
      ∃ child, parse_m3u8 joinConcat c s.url = Except.ok child := by
    intro s hs c hc hcne
    unfold c8fetchGood at hc
    split at hc
    · rename_i hu
      have hc' : c8master = c := Option.some.inj hc
      subst hc'
      rw [hu]
      exact ⟨c8rootParsed, by rfl⟩
    · split at hc
      · exact absurd hc (by simp)
      · split at hc
        · rename_i hu
          have hc' : c8goodChild = c := Option.some.inj hc
          subst hc'
          rw [hu]
          exact ⟨c8childParsed, by rfl⟩
        · exact absurd hc (by simp)
  exact ⟨by decide, by decide, by rfl, by decide,
    claim_C8 joinConcat c8fetchGood c8root c8master c8rootParsed
      (by decide) (by decide) (by rfl) (by decide) h5⟩

end M3U8
